import Mathlib

/-!
Verification development for the polygon merge / simplification core of the
wsiyolo repository.

Shallow embedding conventions:
* Python floats are modelled as exact rationals (`ℚ`); float arithmetic on
  coordinates, areas and thresholds is idealised as exact real arithmetic.
* A shapely polygon is identified with its exterior ring, the closed
  coordinate list `polygon.exterior.coords` (first point repeated at the end),
  modelled as `List Coords`.
* Operations implemented by the external shapely/GEOS library
  (`is_valid`, `simplify`, `length`, `unary_union`, `within`, `contains`,
  `intersection(...).area`) are not part of this repository's source; they are
  modelled as an explicit oracle parameter `Geo`, and the repository's own
  control flow is embedded faithfully over that oracle.  Operations shapely
  specifies exactly and the source relies on numerically (ring closing,
  shoelace area) are implemented concretely.
* Python truthiness of an optional list field (`if pred.polygon:`) is
  `polygon = some l` with `l` non-empty.
-/

/-- Model of `data_structures.Coords`: a point with two float coordinates. -/
structure Coords where
  x : ℚ
  y : ℚ
  deriving DecidableEq

/-- Model of `data_structures.Box`: an axis-aligned rectangle. -/
structure Box where
  start : Coords
  «end» : Coords
  deriving DecidableEq

/-- `Box.area`: `(end.x - start.x) * (end.y - start.y)`. -/
def Box.area (b : Box) : ℚ :=
  (b.«end».x - b.start.x) * (b.«end».y - b.start.y)

/-- `Box.intersection_area`: clamped overlap of two rectangles. -/
def Box.intersection_area (b other : Box) : ℚ :=
  let inter_x1 := max b.start.x other.start.x
  let inter_y1 := max b.start.y other.start.y
  let inter_x2 := min b.«end».x other.«end».x
  let inter_y2 := min b.«end».y other.«end».y
  max 0 (inter_x2 - inter_x1) * max 0 (inter_y2 - inter_y1)

/-- `Box.iou`: intersection over union, `0` when the union area is not positive. -/
def Box.iou (b other : Box) : ℚ :=
  let inter_area := b.intersection_area other
  let union_area := b.area + other.area - inter_area
  if 0 < union_area then inter_area / union_area else 0

/-- Model of `data_structures.Prediction`. -/
structure Prediction where
  class_name : String
  box : Box
  conf : ℚ
  polygon : Option (List Coords) := none
  deriving DecidableEq

/-- Python truthiness of the optional `polygon` field: present and non-empty. -/
def polyTruthy (p : Option (List Coords)) : Bool :=
  match p with
  | none => false
  | some l => !l.isEmpty

/-- ASCII model of Python's `str.lower()` on one character. -/
def pyCharLower (c : Char) : Char :=
  if 'A' ≤ c ∧ c ≤ 'Z' then Char.ofNat (c.toNat + 32) else c

/-- ASCII model of Python's `str.lower()` (class names in this repo are ASCII). -/
def pyLower (s : String) : String :=
  ⟨s.data.map pyCharLower⟩

/-- Shapely's ring closing: `Polygon(coords).exterior.coords` repeats the first
point at the end unless the input already does. -/
def closeRing (l : List Coords) : List Coords :=
  match l with
  | [] => []
  | x :: xs => if xs.getLastD x = x then x :: xs else (x :: xs) ++ [x]

/-- Twice the signed shoelace area of a coordinate list (summed over
consecutive pairs; on a closed ring this is twice the signed enclosed area). -/
def shoelace : List Coords → ℚ
  | a :: b :: t => (a.x * b.y - b.x * a.y) + shoelace (b :: t)
  | _ => 0

/-- Shapely's `polygon.area` on a ring: absolute shoelace area. -/
def shArea (l : List Coords) : ℚ :=
  |shoelace l| / 2

/-- Result shape of shapely's `unary_union` as the source discriminates it:
empty, a single `Polygon`, or a `MultiPolygon` (list of pieces). -/
inductive UnionResult where
  | empty : UnionResult
  | single : List Coords → UnionResult
  | multi : List (List Coords) → UnionResult

/-- Oracle for the external shapely/GEOS operations the source calls.  Each
field stands for the library function of the same role; rings are closed
coordinate lists. -/
structure Geo where
  validFn : List Coords → Bool
  simplifyFn : List Coords → ℚ → List Coords
  lengthFn : List Coords → ℚ
  unionFn : List (List Coords) → UnionResult
  withinFn : List Coords → List Coords → Bool
  containsFn : List Coords → List Coords → Bool
  interAreaFn : List Coords → List Coords → ℚ

/-- Configuration of `ImprovedPolygonMerger.__init__` with its defaults. -/
structure ImprovedPolygonMerger where
  iou_threshold : ℚ := 7/10
  min_area : ℚ := 50
  min_polygon_points : Nat := 8
  lp_class_name : String := "lp"
  background_class : String := "background"

/-- `_filter_background_class`: drop predictions whose class name equals the
configured background class, case-insensitively. -/
def ImprovedPolygonMerger.filterBackgroundClass (m : ImprovedPolygonMerger) :
    List Prediction → List Prediction
  | [] => []
  | p :: rest =>
    if pyLower p.class_name = pyLower m.background_class then
      m.filterBackgroundClass rest
    else
      p :: m.filterBackgroundClass rest

/-- The drop test of `_filter_short_segments`: an lp-class prediction with a
truthy polygon of fewer than `min_polygon_points` points. -/
def ImprovedPolygonMerger.shortDrop (m : ImprovedPolygonMerger) (p : Prediction) : Bool :=
  p.class_name == m.lp_class_name && polyTruthy p.polygon &&
    decide ((p.polygon.getD []).length < m.min_polygon_points)

/-- `_filter_short_segments`: drop short lp contours, keep everything else. -/
def ImprovedPolygonMerger.filterShortSegments (m : ImprovedPolygonMerger) :
    List Prediction → List Prediction
  | [] => []
  | p :: rest =>
    if m.shortDrop p then m.filterShortSegments rest
    else p :: m.filterShortSegments rest

/-- One step of `_group_by_class`: append the prediction to its class bucket,
creating the bucket at the end on first occurrence (Python dict insertion
order). -/
def addToGroups : List (String × List Prediction) → Prediction → List (String × List Prediction)
  | [], p => [(p.class_name, [p])]
  | (c, ps) :: t, p =>
    if c = p.class_name then (c, ps ++ [p]) :: t else (c, ps) :: addToGroups t p

/-- `_group_by_class`: group predictions by class name, buckets in first
occurrence order, members in input order. -/
def groupByClass (preds : List Prediction) : List (String × List Prediction) :=
  preds.foldl addToGroups []

/-- Greedy keep-unless-conflicting pass shared by the duplicate and nested
filters: visit `xs` left to right, drop an element when `bad x k` holds for
some already kept `k` (the Python `for ... if any: break` loop), otherwise
append it to the kept list. -/
def greedyKeep (bad : α → α → Bool) : List α → List α → List α
  | kept, [] => kept
  | kept, x :: xs =>
    if kept.any (bad x) then greedyKeep bad kept xs
    else greedyKeep bad (kept ++ [x]) xs

/-- Python's stable `sorted(..., key=conf, reverse=True)`: a stable sort by
descending confidence (modelled by insertion sort, which is stable for `≤`
placed this way round). -/
def sortByConfDesc (preds : List Prediction) : List Prediction :=
  List.insertionSort (fun a b => b.conf ≤ a.conf) preds

/-- The duplicate test of `filter_by_improved_iou`: same class and box-IoU
strictly above the threshold. -/
def ImprovedPolygonMerger.dupBad (m : ImprovedPolygonMerger) (p q : Prediction) : Bool :=
  p.class_name == q.class_name && decide (m.iou_threshold < p.box.iou q.box)

/-- `filter_by_improved_iou`: sort by descending confidence, then keep each
prediction unless some already kept same-class prediction has IoU strictly
above `iou_threshold`. -/
def ImprovedPolygonMerger.filter_by_improved_iou (m : ImprovedPolygonMerger)
    (predictions : List Prediction) : List Prediction :=
  if predictions.length ≤ 1 then predictions
  else greedyKeep m.dupBad [] (sortByConfDesc predictions)

/-- The polygon/prediction pair list built at the top of
`_filter_nested_objects`: predictions with a polygon of at least 3 points
whose shapely polygon is valid, paired with that polygon's ring. -/
def nestedPairs (geo : Geo) (preds : List Prediction) : List (List Coords × Prediction) :=
  preds.filterMap (fun p =>
    match p.polygon with
    | some l =>
      if 3 ≤ l.length then
        let r := closeRing l
        if geo.validFn r then some (r, p) else none
      else none
    | none => none)

/-- Stable descending sort by polygon area
(`sort(key=lambda x: x[0].area, reverse=True)`). -/
def sortByAreaDesc (l : List (List Coords × Prediction)) : List (List Coords × Prediction) :=
  List.insertionSort (fun a b => shArea b.1 ≤ shArea a.1) l

/-- The nestedness test of `_filter_nested_objects`: candidate ring `x.1`
against a kept prediction `y.2` (whose polygon is rebuilt, skipping kept
predictions without a truthy polygon): `within`, `contains`, or intersection
ratio strictly above 0.8. -/
def nestedBad (geo : Geo) (x y : List Coords × Prediction) : Bool :=
  match y.2.polygon with
  | none => false
  | some l2 =>
    if l2.isEmpty then false
    else
      let poly2 := closeRing l2
      geo.withinFn x.1 poly2 || geo.containsFn poly2 x.1 ||
        decide ((4:ℚ)/5 <
          (if 0 < shArea x.1 then geo.interAreaFn x.1 poly2 / shArea x.1 else 0))

/-- `_filter_nested_objects`: for the lp class, keep only predictions not
nested (by `nestedBad`) in an already kept, larger-or-equal-area one, visiting
candidates in descending area order. -/
def ImprovedPolygonMerger.filterNestedObjects (geo : Geo) (_m : ImprovedPolygonMerger)
    (predictions : List Prediction) : List Prediction :=
  if predictions.length ≤ 1 then predictions
  else
    let pwp := nestedPairs geo predictions
    if pwp.isEmpty then predictions
    else (greedyKeep (nestedBad geo) [] (sortByAreaDesc pwp)).map (·.2)

/-- Stride slice `l[::k]` (Python slice with positive step): the elements at
indices divisible by `k`. -/
def strideSlice (l : List α) (k : Nat) : List α :=
  (List.range l.length).filterMap (fun i => if i % k = 0 then l.get? i else none)

/-- The bounded binary-search loop of `_smart_simplify_polygon` (8 iterations,
with the early `break` once the point count reaches 90% of the budget).
State: remaining iterations, current tolerance range, best polygon so far. -/
def smartLoop (geo : Geo) (ring : List Coords) (max_points : Nat) :
    Nat → ℚ → ℚ → List Coords → List Coords
  | 0, _, _, best => best
  | n + 1, minT, maxT, best =>
    let tolerance := (minT + maxT) / 2
    let simplified := geo.simplifyFn ring tolerance
    if geo.validFn simplified ∧ 3 < simplified.length then
      if simplified.length ≤ max_points then
        if (max_points : ℚ) * 9 / 10 ≤ (simplified.length : ℚ) then simplified
        else smartLoop geo ring max_points n tolerance maxT simplified
      else smartLoop geo ring max_points n minT tolerance best
    else smartLoop geo ring max_points n minT tolerance best

/-- `_smart_simplify_polygon`: binary search in tolerance range `[0.2, 5.0]`
(8 iterations), then a uniform stride sample if still above `max_points`. -/
def ImprovedPolygonMerger.smartSimplifyPolygon (geo : Geo) (_m : ImprovedPolygonMerger)
    (ring : List Coords) (max_points : Nat) : List Coords :=
  if ring.length ≤ max_points then ring
  else
    let best := smartLoop geo ring max_points 8 (1/5) 5 ring
    if max_points < best.length then
      let step := best.length / max_points
      let sampled := strideSlice best (max 1 step)
      if 3 ≤ sampled.length then
        let sp := closeRing sampled
        if geo.validFn sp then sp else best
      else best
    else best

/-- Minimum of a coordinate projection over a ring (`polygon.bounds`
component); `0` for an empty ring, which no caller reaches. -/
def listMin (l : List ℚ) : ℚ :=
  match l with
  | [] => 0
  | h :: t => t.foldl min h

/-- Maximum counterpart of `listMin`. -/
def listMax (l : List ℚ) : ℚ :=
  match l with
  | [] => 0
  | h :: t => t.foldl max h

/-- `_polygon_to_prediction`: simplify when above the per-class point budget
(60 for the lp class, 40 otherwise), then build a `Prediction` from the ring's
bounds and open coordinate list, with the hard-coded confidence 0.8.  The
Python `try`/`except` returning `None` models no reachable failure here, so
the embedded version is total. -/
def ImprovedPolygonMerger.polygonToPrediction (geo : Geo) (m : ImprovedPolygonMerger)
    (ring : List Coords) (class_name : String) : Prediction :=
  let max_points : Nat := if class_name = m.lp_class_name then 60 else 40
  let ring1 := if max_points < ring.length then m.smartSimplifyPolygon geo ring max_points else ring
  let minx := listMin (ring1.map (·.x))
  let miny := listMin (ring1.map (·.y))
  let maxx := listMax (ring1.map (·.x))
  let maxy := listMax (ring1.map (·.y))
  { class_name := class_name
    box := { start := ⟨minx, miny⟩, «end» := ⟨maxx, maxy⟩ }
    conf := 4/5
    polygon := some ring1.dropLast }

/-- The valid shapely polygons built from a class's predictions at the top of
`_merge_class_predictions`: truthy polygons of at least 3 points whose ring is
valid. -/
def classPolygons (geo : Geo) (preds : List Prediction) : List (List Coords) :=
  preds.filterMap (fun p =>
    match p.polygon with
    | some l =>
      if 3 ≤ l.length then
        let r := closeRing l
        if geo.validFn r then some r else none
      else none
    | none => none)

/-- Head class name `predictions[0].class_name if predictions else "unknown"`. -/
def className₀ (preds : List Prediction) : String :=
  match preds with
  | [] => "unknown"
  | p :: _ => p.class_name

/-- The union-result dispatch at the bottom of `_merge_class_predictions`:
empty union returns the inputs; otherwise one prediction per piece of area at
least `min_area`, falling back to the inputs when no piece qualifies. -/
def ImprovedPolygonMerger.mergeUnion (geo : Geo) (m : ImprovedPolygonMerger)
    (predictions : List Prediction) : UnionResult → List Prediction
  | UnionResult.empty => predictions
  | UnionResult.multi rings =>
    let merged := rings.filterMap (fun r =>
      if m.min_area ≤ shArea r then some (m.polygonToPrediction geo r (className₀ predictions))
      else none)
    if merged.isEmpty then predictions else merged
  | UnionResult.single r =>
    let merged :=
      if m.min_area ≤ shArea r then [m.polygonToPrediction geo r (className₀ predictions)]
      else []
    if merged.isEmpty then predictions else merged

/-- `_merge_class_predictions`: union the class's valid polygons and emit one
prediction per piece of area at least `min_area`; every early-exit branch
(one input, no valid polygon, empty union, all pieces below `min_area`)
returns the input predictions unchanged. -/
def ImprovedPolygonMerger.mergeClassPredictions (geo : Geo) (m : ImprovedPolygonMerger)
    (predictions : List Prediction) : List Prediction :=
  if predictions.length ≤ 1 then predictions
  else
    let polygons := classPolygons geo predictions
    if polygons.isEmpty then predictions
    else m.mergeUnion geo predictions (geo.unionFn polygons)

/-- Per-class body of the `merge_predictions` loop: nested-object filtering
for the lp class only, then class merging. -/
def ImprovedPolygonMerger.classOutput (geo : Geo) (m : ImprovedPolygonMerger)
    (g : String × List Prediction) : List Prediction :=
  let ps := if g.1 = m.lp_class_name then m.filterNestedObjects geo g.2 else g.2
  m.mergeClassPredictions geo ps

/-- `merge_predictions`: background filter, short-segment filter, grouping by
class, then per class nested-object filtering (lp only) and merging; the
outputs of all classes are concatenated in group order. -/
def ImprovedPolygonMerger.merge_predictions (geo : Geo) (m : ImprovedPolygonMerger)
    (predictions : List Prediction) : List Prediction :=
  if predictions.isEmpty then []
  else
    let f1 := m.filterBackgroundClass predictions
    let f2 := m.filterShortSegments f1
    ((groupByClass f2).map (m.classOutput geo)).flatten

/-- Per-profile parameters of `AdaptivePolygonSimplifier.__init__`. -/
structure SimpParams where
  min_tolerance : ℚ
  max_tolerance : ℚ
  max_points : Nat
  area_preservation_threshold : ℚ

/-- Polygons with fewer points are "simple". -/
def simple_threshold : Nat := 20

/-- Polygons with more points are "complex". -/
def complex_threshold : Nat := 200

/-- Profile for simple polygons: tolerances `[0.05, 1.0]`, target 15 points,
95% area floor. -/
def simple_params : SimpParams := ⟨1/20, 1, 15, 19/20⟩

/-- Profile for complex polygons: tolerances `[0.1, 3.0]`, target 80 points,
98% area floor. -/
def complex_params : SimpParams := ⟨1/10, 3, 80, 49/50⟩

/-- Profile for medium polygons: tolerances `[0.1, 2.0]`, target 60 points,
97% area floor. -/
def default_params : SimpParams := ⟨1/10, 2, 60, 97/100⟩

/-- Profile selection of `simplify_polygon` by the closed-ring point count. -/
def paramsFor (n : Nat) : SimpParams :=
  if n < simple_threshold then simple_params
  else if complex_threshold < n then complex_params
  else default_params

/-- Complexity label matching `paramsFor`. -/
def complexityFor (n : Nat) : String :=
  if n < simple_threshold then "simple"
  else if complex_threshold < n then "complex"
  else "medium"

/-- Exact decision of the angle test in `_find_key_points` (default
`min_angle = 15`): with `v1 = p1 - p2`, `v2 = p3 - p2` both nonzero, the
Python code computes `angle = degrees(acos(dot/(|v1||v2|)))` and keeps the
vertex when `angle < 165`.  Over exact reals that is equivalent to
`dot > cos(165°)·|v1||v2|` with `cos(165°) = -(√6+√2)/4`; squaring twice
(tracking signs, using `cos²(165°) = (2+√3)/4`) yields the rational test
implemented here.  Zero-length edges fail the guard and are never key. -/
def sharpB (p1 p2 p3 : Coords) : Bool :=
  let v1x := p1.x - p2.x
  let v1y := p1.y - p2.y
  let v2x := p3.x - p2.x
  let v2y := p3.y - p2.y
  let s1 := v1x ^ 2 + v1y ^ 2
  let s2 := v2x ^ 2 + v2y ^ 2
  if 0 < s1 ∧ 0 < s2 then
    let dt := v1x * v2x + v1y * v2y
    if 0 ≤ dt then true
    else
      let a := 4 * dt ^ 2 - 2 * (s1 * s2)
      if a < 0 then true else decide (a ^ 2 < 3 * (s1 * s2) ^ 2)
  else false

/-- `_find_key_points`: index 0, each interior vertex passing the angle test,
and the last index if not already present. -/
def findKeyPoints (coords : List Coords) : List Nat :=
  if coords.length < 3 then List.range coords.length
  else
    let interior := (List.range (coords.length - 2)).filterMap (fun j =>
      let i := j + 1
      if sharpB (coords.getD (i - 1) ⟨0, 0⟩) (coords.getD i ⟨0, 0⟩) (coords.getD (i + 1) ⟨0, 0⟩)
      then some i else none)
    let base := 0 :: interior
    if (coords.length - 1) ∈ base then base else base ++ [coords.length - 1]

/-- The metrics-dict fields of `_adaptive_simplify`/`_fallback_simplify` that
later code reads (`method`, `tolerance_used`, `iterations`); keys a branch
does not write default to `0` as with Python's `dict.get`. -/
structure BMeta where
  method : String
  tolerance_used : ℚ := 0
  iterations : Nat := 0
  deriving DecidableEq

/-- `_fallback_simplify`: key-point rebuild when within budget and valid,
otherwise uniform index sampling down to exactly `target_points` indices
(`int(i * step) % len` with real `step = len/target`), re-closed; an invalid
sampled ring returns the original polygon as `fallback_failed`, and a
construction failure (fewer than 3 coordinates) as `fallback_error`. -/
def fallbackSimplify (geo : Geo) (ring : List Coords) (target_points : Nat)
    (_params : SimpParams) : List Coords × BMeta :=
  if ring.length ≤ target_points then (ring, { method := "no_simplification_needed" })
  else
    let coords := ring
    let key_points := findKeyPoints coords
    let keyResult : Option (List Coords × BMeta) :=
      if key_points.length ≤ target_points then
        let key_coords := key_points.map (fun i => coords.getD i ⟨0, 0⟩)
        if 3 ≤ key_coords.length then
          let kr := closeRing key_coords
          if geo.validFn kr then some (kr, { method := "key_points_preservation" }) else none
        else none
      else none
    match keyResult with
    | some r => r
    | none =>
      let step : ℚ := (coords.length : ℚ) / (target_points : ℚ)
      let sampled := (List.range target_points).map
        (fun i : Nat => coords.getD ((Int.toNat ⌊(i : ℚ) * step⌋) % coords.length) ⟨0, 0⟩)
      match sampled with
      | [] => (ring, { method := "fallback_error" })
      | s0 :: _ =>
        let closed := if sampled.getLastD s0 ≠ s0 then sampled ++ [s0] else sampled
        if closed.length < 3 then (ring, { method := "fallback_error" })
        else if geo.validFn closed then (closed, { method := "adaptive_sampling" })
        else (ring, { method := "fallback_failed" })

/-- Search state of the `_adaptive_simplify` binary search. -/
structure AState where
  minT : ℚ
  maxT : ℚ
  best : List Coords
  bestScore : ℚ
  bestMeta : Option BMeta

/-- One iteration of the `_adaptive_simplify` binary search: reject invalid or
tiny results (lower the upper tolerance); otherwise score candidates meeting
the area floor and point budget, keeping the best score. -/
def adStep (geo : Geo) (ring : List Coords) (target_points : Nat) (area_threshold : ℚ)
    (st : AState) (iteration : Nat) : AState :=
  let tolerance := (st.minT + st.maxT) / 2
  let simplified := geo.simplifyFn ring tolerance
  if geo.validFn simplified = false ∨ simplified.length < 3 then
    { st with maxT := tolerance }
  else
    let area_preserved := if 0 < shArea ring then shArea simplified / shArea ring else 0
    let points_count := simplified.length
    if area_threshold ≤ area_preserved then
      if points_count ≤ target_points then
        let score := area_preserved * ((target_points : ℚ) / (max points_count 1 : ℚ))
        if st.bestScore < score then
          { minT := tolerance, maxT := st.maxT, best := simplified, bestScore := score,
            bestMeta := some ⟨"douglas_peucker", tolerance, iteration + 1⟩ }
        else { st with minT := tolerance }
      else { st with maxT := tolerance }
    else { st with maxT := tolerance }

/-- `_adaptive_simplify`: 12 binary-search iterations, then the fallback when
nothing scored or the best result is still more than 1.5 times the budget. -/
def adaptiveSimplify (geo : Geo) (ring : List Coords) (target_points : Nat)
    (params : SimpParams) : List Coords × Option BMeta :=
  let init : AState := ⟨params.min_tolerance, params.max_tolerance, ring, 0, none⟩
  let st := (List.range 12).foldl
    (adStep geo ring target_points params.area_preservation_threshold) init
  if st.bestScore = 0 ∨ (target_points : ℚ) * 3 / 2 < (st.best.length : ℚ) then
    let r := fallbackSimplify geo ring target_points params
    (r.1, some r.2)
  else (st.best, st.bestMeta)

/-- The final metrics dict of `simplify_polygon`. -/
structure SimpMetrics where
  original_points : Nat
  simplified_points : Nat
  area_preserved : ℚ
  perimeter_preserved : ℚ
  complexity : String
  method : String
  tolerance_used : ℚ
  iterations : Nat
  deriving DecidableEq

/-- Result of `simplify_polygon`: the error dict for an invalid or empty
input (paired with the returned polygon), or a simplified polygon with
metrics. -/
inductive SimpResult where
  | err : List Coords → SimpResult
  | ok : List Coords → SimpMetrics → SimpResult
  deriving DecidableEq

/-- `simplify_polygon`: classify by closed-ring point count, return unchanged
when already within the profile's budget, otherwise run the adaptive search
and report final metrics. -/
def simplify_polygon (geo : Geo) (polygon : List Coords)
    (targetOpt : Option Nat) : SimpResult :=
  if geo.validFn polygon = false ∨ polygon.isEmpty then SimpResult.err polygon
  else
    let original_points := polygon.length
    let original_area := shArea polygon
    let original_perimeter := geo.lengthFn polygon
    let params := paramsFor original_points
    let complexity := complexityFor original_points
    let target_points := targetOpt.getD params.max_points
    if original_points ≤ target_points then
      SimpResult.ok polygon
        ⟨original_points, original_points, 1, 1, complexity, "no_simplification_needed", 0, 0⟩
    else
      let r := adaptiveSimplify geo polygon target_points params
      SimpResult.ok r.1
        ⟨original_points, r.1.length,
         if 0 < original_area then shArea r.1 / original_area else 0,
         if 0 < original_perimeter then geo.lengthFn r.1 / original_perimeter else 0,
         complexity,
         (r.2.map BMeta.method).getD "adaptive_simplify",
         (r.2.map BMeta.tolerance_used).getD 0,
         (r.2.map BMeta.iterations).getD 0⟩

theorem Box.intersection_area_comm (a b : Box) : a.intersection_area b = b.intersection_area a := by
  unfold Box.intersection_area
  rw [max_comm a.start.x, max_comm a.start.y, min_comm a.«end».x, min_comm a.«end».y]

theorem Box.iou_comm (a b : Box) : a.iou b = b.iou a := by
  unfold Box.iou
  rw [Box.intersection_area_comm, add_comm a.area]

instance : IsTotal Prediction (fun a b => b.conf ≤ a.conf) :=
  ⟨fun a b => le_total b.conf a.conf⟩

instance : IsTrans Prediction (fun a b => b.conf ≤ a.conf) :=
  ⟨fun _ _ _ h1 h2 => le_trans h2 h1⟩

instance : IsTotal (List Coords × Prediction) (fun a b => shArea b.1 ≤ shArea a.1) :=
  ⟨fun a b => le_total (shArea b.1) (shArea a.1)⟩

instance : IsTrans (List Coords × Prediction) (fun a b => shArea b.1 ≤ shArea a.1) :=
  ⟨fun _ _ _ h1 h2 => le_trans h2 h1⟩

theorem greedyKeep_mono (bad : α → α → Bool) :
    ∀ (xs kept : List α) (y : α), y ∈ kept → y ∈ greedyKeep bad kept xs := by
  intro xs
  induction xs with
  | nil => intro kept y hy; simpa [greedyKeep] using hy
  | cons x xs ih =>
    intro kept y hy
    by_cases h : kept.any (bad x) = true
    · simpa [greedyKeep, h] using ih kept y hy
    · have hy' : y ∈ kept ++ [x] := by simp [hy]
      simp only [greedyKeep, h]
      simpa using ih (kept ++ [x]) y hy'

theorem greedyKeep_sublist (bad : α → α → Bool) :
    ∀ (xs kept : List α), (greedyKeep bad kept xs).Sublist (kept ++ xs) := by
  intro xs
  induction xs with
  | nil => intro kept; simp [greedyKeep]
  | cons x xs ih =>
    intro kept
    by_cases h : kept.any (bad x) = true
    · simp only [greedyKeep, h, if_true]
      exact (ih kept).trans ((List.sublist_cons_self x xs).append_left kept)
    · simp only [greedyKeep, h]
      have := ih (kept ++ [x])
      simpa [List.append_assoc] using this

theorem greedyKeep_pairwise (bad : α → α → Bool) :
    ∀ (xs kept : List α), kept.Pairwise (fun a b => bad b a = false) →
      (greedyKeep bad kept xs).Pairwise (fun a b => bad b a = false) := by
  intro xs
  induction xs with
  | nil => intro kept hk; simpa [greedyKeep] using hk
  | cons x xs ih =>
    intro kept hk
    by_cases h : kept.any (bad x) = true
    · simp only [greedyKeep, h, if_true]
      exact ih kept hk
    · simp only [greedyKeep, h]
      simp only [Bool.not_eq_true, List.any_eq_false] at h
      refine ih (kept ++ [x]) ?_
      rw [List.pairwise_append]
      exact ⟨hk, List.pairwise_singleton _ _, by simpa using h⟩

theorem greedyKeep_complete (bad : α → α → Bool) (R : α → α → Prop) :
    ∀ (xs kept : List α), (kept ++ xs).Pairwise R →
      ∀ x ∈ xs, x ∉ greedyKeep bad kept xs →
        ∃ q ∈ greedyKeep bad kept xs, bad x q = true ∧ R q x := by
  intro xs
  induction xs with
  | nil => intro kept _ x hx; simp at hx
  | cons y xs ih =>
    intro kept hp x hx hnot
    by_cases h : kept.any (bad y) = true
    · simp only [greedyKeep, h, if_true] at hnot ⊢
      rcases List.mem_cons.mp hx with rfl | hx'
      · rcases List.any_eq_true.mp h with ⟨q, hqk, hbad⟩
        refine ⟨q, greedyKeep_mono bad xs kept q hqk, hbad, ?_⟩
        exact (List.pairwise_append.mp hp).2.2 q hqk x (List.mem_cons_self x xs)
      · have hp' : (kept ++ xs).Pairwise R :=
          hp.sublist ((List.sublist_cons_self y xs).append_left kept)
        exact ih kept hp' x hx' hnot
    · simp only [greedyKeep, h] at hnot ⊢
      have hp' : ((kept ++ [y]) ++ xs).Pairwise R := by
        simpa [List.append_assoc] using hp
      rcases List.mem_cons.mp hx with rfl | hx'
      · exact absurd (greedyKeep_mono bad xs (kept ++ [x]) x (by simp)) hnot
      · exact ih (kept ++ [y]) hp' x hx' hnot

theorem pairwise_mem_or {R : α → α → Prop} :
    ∀ {l : List α}, l.Pairwise R → ∀ {a b : α}, a ∈ l → b ∈ l → a = b ∨ R a b ∨ R b a := by
  intro l hl
  induction l with
  | nil => intro a b ha; simp at ha
  | cons x t ih =>
    intro a b ha hb
    rcases List.pairwise_cons.mp hl with ⟨hx, ht⟩
    rcases List.mem_cons.mp ha with rfl | ha' <;> rcases List.mem_cons.mp hb with rfl | hb'
    · exact Or.inl rfl
    · exact Or.inr (Or.inl (hx b hb'))
    · exact Or.inr (Or.inr (hx a ha'))
    · exact ih ht ha' hb'

theorem sortByConfDesc_perm (preds : List Prediction) :
    List.Perm (sortByConfDesc preds) preds :=
  List.perm_insertionSort _ preds

theorem sortByConfDesc_sorted (preds : List Prediction) :
    (sortByConfDesc preds).Pairwise (fun a b => b.conf ≤ a.conf) :=
  List.sorted_insertionSort _ preds

theorem dupBad_eq_true_iff (m : ImprovedPolygonMerger) (p q : Prediction) :
    m.dupBad p q = true ↔ p.class_name = q.class_name ∧ m.iou_threshold < p.box.iou q.box := by
  simp [ImprovedPolygonMerger.dupBad]

/-- Claim C1: `filter_by_improved_iou` keeps exactly the predictions that, in
descending-confidence order, are not same-class IoU-above-threshold duplicates
of an already kept one.  Conjuncts: the output is a sublist of the
descending-confidence sorting; no two kept same-class predictions have box-IoU
strictly above `iou_threshold`; every dropped prediction has a kept same-class
witness with IoU strictly above the threshold and confidence at least its own;
two same-class predictions with IoU exactly at the threshold are both kept;
with IoU strictly above it only the higher-confidence one is kept. -/
theorem claim1_duplicate_filter (m : ImprovedPolygonMerger) :
    (∀ preds, (m.filter_by_improved_iou preds).Sublist (sortByConfDesc preds))
    ∧ (∀ preds, (m.filter_by_improved_iou preds).Pairwise
        (fun a b => b.class_name = a.class_name → b.box.iou a.box ≤ m.iou_threshold))
    ∧ (∀ preds, ∀ p ∈ preds, p ∉ m.filter_by_improved_iou preds →
        ∃ q ∈ m.filter_by_improved_iou preds,
          q.class_name = p.class_name ∧ m.iou_threshold < p.box.iou q.box ∧ p.conf ≤ q.conf)
    ∧ (∀ p q : Prediction, p.class_name = q.class_name → p.box.iou q.box = m.iou_threshold →
        p ∈ m.filter_by_improved_iou [p, q] ∧ q ∈ m.filter_by_improved_iou [p, q])
    ∧ (∀ p q : Prediction, p.class_name = q.class_name → m.iou_threshold < p.box.iou q.box →
        q.conf < p.conf → m.filter_by_improved_iou [p, q] = [p])
    ∧ (∀ preds, (m.filter_by_improved_iou preds).Pairwise (fun a b => b.conf ≤ a.conf)) := by
  have hsub : ∀ preds, (m.filter_by_improved_iou preds).Sublist (sortByConfDesc preds) := by
    intro preds
    unfold ImprovedPolygonMerger.filter_by_improved_iou
    by_cases hlen : preds.length ≤ 1
    · rw [if_pos hlen]
      match preds with
      | [] => simp
      | [p] => simp [sortByConfDesc, List.insertionSort, List.orderedInsert]
      | p :: q :: t => simp at hlen
    · rw [if_neg hlen]
      simpa using greedyKeep_sublist m.dupBad (sortByConfDesc preds) []
  have hpw : ∀ preds, (m.filter_by_improved_iou preds).Pairwise
      (fun a b => b.class_name = a.class_name → b.box.iou a.box ≤ m.iou_threshold) := by
    intro preds
    have hbase : (m.filter_by_improved_iou preds).Pairwise
        (fun a b => m.dupBad b a = false) := by
      unfold ImprovedPolygonMerger.filter_by_improved_iou
      by_cases hlen : preds.length ≤ 1
      · rw [if_pos hlen]
        match preds with
        | [] => simp
        | [p] => simp
        | p :: q :: t => simp at hlen
      · rw [if_neg hlen]
        exact greedyKeep_pairwise m.dupBad (sortByConfDesc preds) [] (by simp)
    refine hbase.imp ?_
    intro a b hf hcls
    by_contra hgt
    have : m.dupBad b a = true :=
      (dupBad_eq_true_iff m b a).mpr ⟨hcls, lt_of_not_le hgt⟩
    rw [hf] at this
    exact Bool.false_ne_true this
  have hcomp : ∀ preds, ∀ p ∈ preds, p ∉ m.filter_by_improved_iou preds →
      ∃ q ∈ m.filter_by_improved_iou preds,
        q.class_name = p.class_name ∧ m.iou_threshold < p.box.iou q.box ∧ p.conf ≤ q.conf := by
    intro preds p hp hnot
    by_cases hlen : preds.length ≤ 1
    · rw [ImprovedPolygonMerger.filter_by_improved_iou, if_pos hlen] at hnot
      exact absurd hp hnot
    · have hps : p ∈ sortByConfDesc preds := ((sortByConfDesc_perm preds).mem_iff).mpr hp
      have hsorted : (([] : List Prediction) ++ sortByConfDesc preds).Pairwise
          (fun a b => b.conf ≤ a.conf) := by simpa using sortByConfDesc_sorted preds
      rw [ImprovedPolygonMerger.filter_by_improved_iou, if_neg hlen] at hnot ⊢
      obtain ⟨q, hq, hbad, hconf⟩ :=
        greedyKeep_complete m.dupBad _ (sortByConfDesc preds) [] hsorted p hps hnot
      obtain ⟨hcls, hlt⟩ := (dupBad_eq_true_iff m p q).mp hbad
      exact ⟨q, hq, hcls.symm, hlt, hconf⟩
  refine ⟨hsub, hpw, hcomp, ?_, ?_, fun preds => (sortByConfDesc_sorted preds).sublist (hsub preds)⟩
  · intro p q hcls hiou
    have hmem : ∀ r ∈ m.filter_by_improved_iou [p, q], r = p ∨ r = q := by
      intro r hr
      have : r ∈ sortByConfDesc [p, q] := (hsub [p, q]).mem hr
      have : r ∈ [p, q] := ((sortByConfDesc_perm [p, q]).mem_iff).mp this
      simpa using this
    constructor
    · by_contra hp
      obtain ⟨q', hq', hcq', hlt, _⟩ := hcomp [p, q] p (by simp) hp
      rcases hmem q' hq' with rfl | rfl
      · exact hp hq'
      · rw [hiou] at hlt
        exact lt_irrefl _ hlt
    · by_contra hq
      obtain ⟨q', hq', hcq', hlt, _⟩ := hcomp [p, q] q (by simp) hq
      rcases hmem q' hq' with rfl | rfl
      · rw [Box.iou_comm, hiou] at hlt
        exact lt_irrefl _ hlt
      · exact hq hq'
  · intro p q hcls hlt hconf
    have hlen : ¬([p, q].length ≤ 1) := by simp
    rw [ImprovedPolygonMerger.filter_by_improved_iou, if_neg hlen]
    have hsort : sortByConfDesc [p, q] = [p, q] := by
      simp [sortByConfDesc, List.insertionSort, List.orderedInsert, le_of_lt hconf]
    rw [hsort]
    have hbad : m.dupBad q p = true := by
      rw [dupBad_eq_true_iff]
      rw [Box.iou_comm]
      exact ⟨hcls.symm, hlt⟩
    simp [greedyKeep, hbad]

/-- Merger with all constructor defaults. -/
def mergerDefault : ImprovedPolygonMerger := {}

/-- Witness detection A: box (0,0)-(100,100), confidence 0.9. -/
def predA : Prediction := ⟨"biopsy", ⟨⟨0, 0⟩, ⟨100, 100⟩⟩, 9/10, none⟩

/-- Witness detection B: box (0,0)-(100,70), confidence 0.8; IoU with A is
exactly 0.7. -/
def predB : Prediction := ⟨"biopsy", ⟨⟨0, 0⟩, ⟨100, 70⟩⟩, 8/10, none⟩

/-- Witness detection B2: box (0,0)-(100,80), confidence 0.8; IoU with A is
0.8, strictly above the threshold. -/
def predB2 : Prediction := ⟨"biopsy", ⟨⟨0, 0⟩, ⟨100, 80⟩⟩, 8/10, none⟩

theorem claim1_duplicate_filter_witness :
    (predA ∈ mergerDefault.filter_by_improved_iou [predA, predB]
      ∧ predB ∈ mergerDefault.filter_by_improved_iou [predA, predB])
    ∧ mergerDefault.filter_by_improved_iou [predA, predB2] = [predA] := by
  constructor
  · exact (claim1_duplicate_filter mergerDefault).2.2.2.1 predA predB rfl
      (by norm_num [predA, predB, mergerDefault, Box.iou, Box.intersection_area, Box.area,
        max_def, min_def])
  · exact (claim1_duplicate_filter mergerDefault).2.2.2.2.1 predA predB2 rfl
      (by norm_num [predA, predB2, mergerDefault, Box.iou, Box.intersection_area, Box.area,
        max_def, min_def])
      (by norm_num [predA, predB2])

theorem mem_filterBackgroundClass (m : ImprovedPolygonMerger) :
    ∀ {preds : List Prediction} {p : Prediction}, p ∈ m.filterBackgroundClass preds →
      p ∈ preds ∧ pyLower p.class_name ≠ pyLower m.background_class := by
  intro preds
  induction preds with
  | nil => intro p hp; simp [ImprovedPolygonMerger.filterBackgroundClass] at hp
  | cons q rest ih =>
    intro p hp
    by_cases hq : pyLower q.class_name = pyLower m.background_class
    · rw [ImprovedPolygonMerger.filterBackgroundClass, if_pos hq] at hp
      obtain ⟨h1, h2⟩ := ih hp
      exact ⟨List.mem_cons_of_mem q h1, h2⟩
    · rw [ImprovedPolygonMerger.filterBackgroundClass, if_neg hq] at hp
      rcases List.mem_cons.mp hp with rfl | hp'
      · exact ⟨List.mem_cons_self p rest, hq⟩
      · obtain ⟨h1, h2⟩ := ih hp'
        exact ⟨List.mem_cons_of_mem q h1, h2⟩

theorem filterShortSegments_sublist (m : ImprovedPolygonMerger) :
    ∀ preds : List Prediction, (m.filterShortSegments preds).Sublist preds := by
  intro preds
  induction preds with
  | nil => simp [ImprovedPolygonMerger.filterShortSegments]
  | cons q rest ih =>
    by_cases hq : m.shortDrop q = true
    · rw [ImprovedPolygonMerger.filterShortSegments, if_pos hq]
      exact ih.trans (List.sublist_cons_self q rest)
    · rw [ImprovedPolygonMerger.filterShortSegments, if_neg hq]
      exact ih.cons₂ q


theorem addToGroups_mem {P : Prediction → Prop} (q : Prediction) (hq : P q) :
    ∀ (acc : List (String × List Prediction)),
      (∀ cp ∈ acc, cp.2 ≠ [] ∧ ∀ p ∈ cp.2, p.class_name = cp.1 ∧ P p) →
      ∀ cp ∈ addToGroups acc q, cp.2 ≠ [] ∧ ∀ p ∈ cp.2, p.class_name = cp.1 ∧ P p := by
  intro acc
  induction acc with
  | nil =>
    intro _ cp hcp
    rw [addToGroups] at hcp
    rcases List.mem_singleton.mp hcp with rfl
    refine ⟨by simp, ?_⟩
    intro p hp
    rcases List.mem_singleton.mp hp with rfl
    exact ⟨rfl, hq⟩
  | cons hd tl ihacc =>
    intro hacc cp hcp
    obtain ⟨c, ps⟩ := hd
    by_cases hc : c = q.class_name
    · rw [addToGroups, if_pos hc] at hcp
      rcases List.mem_cons.mp hcp with heq | hcp'
      · subst heq
        refine ⟨by simp, ?_⟩
        intro p hp
        rcases List.mem_append.mp hp with hp' | hp'
        · exact (hacc (c, ps) (List.mem_cons_self _ tl)).2 p hp'
        · rcases List.mem_singleton.mp hp' with rfl
          exact ⟨hc.symm, hq⟩
      · exact hacc cp (List.mem_cons_of_mem _ hcp')
    · rw [addToGroups, if_neg hc] at hcp
      rcases List.mem_cons.mp hcp with heq | hcp'
      · subst heq
        exact hacc (c, ps) (List.mem_cons_self _ tl)
      · exact ihacc (fun cp' h' => hacc cp' (List.mem_cons_of_mem _ h')) cp hcp'

theorem groupByClass_fold_mem {P : Prediction → Prop} :
    ∀ (l : List Prediction) (acc : List (String × List Prediction)),
      (∀ cp ∈ acc, cp.2 ≠ [] ∧ ∀ p ∈ cp.2, p.class_name = cp.1 ∧ P p) →
      (∀ p ∈ l, P p) →
      ∀ cp ∈ l.foldl addToGroups acc, cp.2 ≠ [] ∧ ∀ p ∈ cp.2, p.class_name = cp.1 ∧ P p := by
  intro l
  induction l with
  | nil => intro acc hacc _ cp hcp; exact hacc cp hcp
  | cons q rest ih =>
    intro acc hacc hl cp hcp
    rw [List.foldl_cons] at hcp
    exact ih (addToGroups acc q)
      (addToGroups_mem q (hl q (List.mem_cons_self q rest)) acc hacc)
      (fun p hp => hl p (List.mem_cons_of_mem q hp)) cp hcp

theorem groupByClass_mem {preds : List Prediction} {cp : String × List Prediction}
    (h : cp ∈ groupByClass preds) :
    cp.2 ≠ [] ∧ ∀ p ∈ cp.2, p.class_name = cp.1 ∧ p ∈ preds := by
  exact groupByClass_fold_mem preds [] (by simp) (fun p hp => hp) cp h

theorem nestedPairs_mem {geo : Geo} {preds : List Prediction}
    {pr : List Coords × Prediction} (h : pr ∈ nestedPairs geo preds) :
    pr.2 ∈ preds ∧ ∃ l, pr.2.polygon = some l ∧ 3 ≤ l.length ∧
      geo.validFn (closeRing l) = true ∧ pr.1 = closeRing l := by
  obtain ⟨a, ha, heq⟩ := List.mem_filterMap.mp h
  split at heq
  case h_1 l hpoly =>
    simp only [] at heq
    split at heq
    case isTrue h3 =>
      split at heq
      case isTrue hv =>
        obtain rfl := Option.some.inj heq
        exact ⟨ha, l, hpoly, h3, hv, rfl⟩
      case isFalse hv => simp at heq
    case isFalse h3 => simp at heq
  case h_2 hpoly => simp at heq

theorem mem_filterNestedObjects (geo : Geo) (m : ImprovedPolygonMerger)
    {preds : List Prediction} {p : Prediction}
    (h : p ∈ m.filterNestedObjects geo preds) : p ∈ preds := by
  rw [ImprovedPolygonMerger.filterNestedObjects] at h
  by_cases hlen : preds.length ≤ 1
  · rwa [if_pos hlen] at h
  · rw [if_neg hlen] at h
    by_cases hemp : (nestedPairs geo preds).isEmpty = true
    · rwa [if_pos hemp] at h
    · rw [if_neg hemp] at h
      obtain ⟨pr, hpr, rfl⟩ := List.mem_map.mp h
      have h1 : pr ∈ sortByAreaDesc (nestedPairs geo preds) :=
        (greedyKeep_sublist (nestedBad geo) _ []).mem hpr
      have h2 : pr ∈ nestedPairs geo preds :=
        (List.perm_insertionSort _ _).mem_iff.mp h1
      exact (nestedPairs_mem h2).1

theorem filterMap_if_eq_map_filter (p : α → Bool) (f : α → β) :
    ∀ l : List α, (l.filterMap (fun a => if p a then some (f a) else none)) =
      (l.filter p).map f := by
  intro l
  induction l with
  | nil => simp
  | cons x t ih =>
    by_cases hx : p x = true
    · simp [hx, ih]
    · simp [hx, ih]

theorem mem_mergeClassPredictions (geo : Geo) (m : ImprovedPolygonMerger)
    {preds : List Prediction} {p : Prediction}
    (h : p ∈ m.mergeClassPredictions geo preds) :
    p ∈ preds ∨ p.class_name = className₀ preds := by
  rw [ImprovedPolygonMerger.mergeClassPredictions] at h
  split at h
  · exact Or.inl h
  · simp only [] at h
    split at h
    · exact Or.inl h
    · rw [ImprovedPolygonMerger.mergeUnion.eq_def] at h
      split at h
      · exact Or.inl h
      · simp only [] at h
        split at h
        · exact Or.inl h
        · obtain ⟨r, _, heq⟩ := List.mem_filterMap.mp h
          split at heq
          · obtain rfl := Option.some.inj heq
            exact Or.inr rfl
          · simp at heq
      · simp only [] at h
        split at h
        · split at h
          · exact Or.inl h
          · rcases List.mem_singleton.mp h with rfl
            exact Or.inr rfl
        · split at h
          · exact Or.inl h
          · simp at h

theorem shortDrop_eq (m : ImprovedPolygonMerger) (p : Prediction) :
    m.shortDrop p = (p.class_name == m.lp_class_name &&
      (match p.polygon with
       | some l => !l.isEmpty && decide (l.length < m.min_polygon_points)
       | none => false)) := by
  match hp : p.polygon with
  | none => simp [ImprovedPolygonMerger.shortDrop, polyTruthy, hp]
  | some l => simp [ImprovedPolygonMerger.shortDrop, polyTruthy, hp, Bool.and_assoc]

/-- Claim C8 (amended): the short-contour filter drops exactly the predictions
of the configured lp class whose polygon is present and non-empty with fewer
than `min_polygon_points` points; lp predictions with a missing or empty
polygon, and all predictions of other classes, pass through unchanged in their
original order.  (The unamended claim fails on an lp prediction whose polygon
is the empty list: it has fewer than 8 vertices but Python's truthiness check
keeps it.) -/
theorem claim8_short_contour_filter (m : ImprovedPolygonMerger) (preds : List Prediction) :
    m.filterShortSegments preds = preds.filter (fun p =>
      !(p.class_name == m.lp_class_name &&
        (match p.polygon with
         | some l => !l.isEmpty && decide (l.length < m.min_polygon_points)
         | none => false)))
    ∧ (m.filterShortSegments preds).Sublist preds
    ∧ (∀ p ∈ preds, p.class_name ≠ m.lp_class_name → p ∈ m.filterShortSegments preds) := by
  have hfil : m.filterShortSegments preds = preds.filter (fun p => !(m.shortDrop p)) := by
    induction preds with
    | nil => simp [ImprovedPolygonMerger.filterShortSegments]
    | cons q rest ih =>
      cases hq : m.shortDrop q with
      | true => simp [ImprovedPolygonMerger.filterShortSegments, hq, ih]
      | false => simp [ImprovedPolygonMerger.filterShortSegments, hq, ih]
  refine ⟨?_, filterShortSegments_sublist m preds, ?_⟩
  · rw [hfil]
    congr 1
    funext p
    rw [shortDrop_eq]
  · intro p hp hne
    rw [hfil]
    refine List.mem_filter.mpr ⟨hp, ?_⟩
    have : (p.class_name == m.lp_class_name) = false := by
      simpa using hne
    rw [shortDrop_eq, this]
    simp

/-- Claim C8 witness: a non-lp prediction passes through the filter. -/
theorem claim8_short_contour_filter_witness :
    predA ∈ mergerDefault.filterShortSegments [predA] :=
  (claim8_short_contour_filter mergerDefault [predA]).2.2 predA
    (List.mem_singleton.mpr rfl) (by decide)

/-- Witness lp prediction carrying an empty polygon list. -/
def predLpEmptyPoly : Prediction := ⟨"lp", ⟨⟨0, 0⟩, ⟨1, 1⟩⟩, 1/2, some []⟩

/-- Claim C8 counterexample: an lp prediction whose polygon is the empty list
has 0 (< 8 = `min_polygon_points`) vertices, yet the filter keeps it, because
the source guards the vertex-count test with Python truthiness of the list. -/
theorem claim8_counterexample :
    mergerDefault.filterShortSegments [predLpEmptyPoly] = [predLpEmptyPoly]
    ∧ predLpEmptyPoly.class_name = mergerDefault.lp_class_name
    ∧ predLpEmptyPoly.polygon = some []
    ∧ (0 : Nat) < mergerDefault.min_polygon_points := by
  refine ⟨?_, rfl, rfl, by norm_num [mergerDefault]⟩
  simp [ImprovedPolygonMerger.filterShortSegments, ImprovedPolygonMerger.shortDrop,
    polyTruthy, predLpEmptyPoly]

/-- Claim C10: `merge_predictions` applies the case-insensitive background
filter first, before any other filtering, grouping or merging, and no
prediction whose class name equals the configured background class
(case-insensitively) ever appears in the output. -/
theorem claim10_background_filter (geo : Geo) (m : ImprovedPolygonMerger) :
    (∀ preds, ¬preds.isEmpty = true →
      m.merge_predictions geo preds =
        ((groupByClass (m.filterShortSegments (m.filterBackgroundClass preds))).map
          (m.classOutput geo)).flatten)
    ∧ (∀ preds, ∀ p ∈ m.merge_predictions geo preds,
        pyLower p.class_name ≠ pyLower m.background_class) := by
  constructor
  · intro preds hne
    rw [ImprovedPolygonMerger.merge_predictions, if_neg hne]
  · intro preds p hp
    rw [ImprovedPolygonMerger.merge_predictions] at hp
    split at hp
    · simp at hp
    · obtain ⟨l, hl, hpl⟩ := List.mem_flatten.mp hp
      obtain ⟨cp, hcp, rfl⟩ := List.mem_map.mp hl
      have hgm := groupByClass_mem hcp
      rw [ImprovedPolygonMerger.classOutput] at hpl
      have hsub : ∀ q ∈ (if cp.1 = m.lp_class_name then m.filterNestedObjects geo cp.2 else cp.2),
          q ∈ cp.2 := by
        split
        · exact fun q hq => mem_filterNestedObjects geo m hq
        · exact fun q hq => hq
      have hclass : p.class_name = cp.1 := by
        rcases mem_mergeClassPredictions geo m hpl with hin | hcls
        · exact (hgm.2 p (hsub p hin)).1
        · cases hqs : (if cp.1 = m.lp_class_name then m.filterNestedObjects geo cp.2 else cp.2) with
          | nil =>
            rw [hqs] at hpl
            rw [ImprovedPolygonMerger.mergeClassPredictions] at hpl
            simp at hpl
          | cons q0 tl =>
            rw [hqs] at hcls
            rw [hcls, className₀]
            exact (hgm.2 q0 (hsub q0 (by rw [hqs]; exact List.mem_cons_self q0 tl))).1
      obtain ⟨q1, hq1⟩ := List.exists_mem_of_ne_nil _ hgm.1
      obtain ⟨hcq1, hq1f2⟩ := hgm.2 q1 hq1
      have hq1f1 := (filterShortSegments_sublist m _).mem hq1f2
      obtain ⟨_, hbg⟩ := mem_filterBackgroundClass m hq1f1
      rw [hclass, ← hcq1]
      exact hbg

/-- Oracle with trivially permissive geometry (everything valid, union empty,
no containment); sufficient for runs that never reach the union stage. -/
def geoTrivial : Geo :=
  ⟨fun _ => true, fun r _ => r, fun _ => 1, fun _ => UnionResult.empty,
   fun _ _ => false, fun _ _ => false, fun _ _ => 0⟩

/-- Claim C10 witness: a non-background prediction survives the pipeline and
its class is not the background class. -/
theorem claim10_background_filter_witness :
    pyLower predA.class_name ≠ pyLower mergerDefault.background_class := by
  have h1 : ¬(pyLower "biopsy" = pyLower "background") := by decide
  have h2 : ("biopsy" = "lp") = False := by
    simp only [eq_iff_iff, iff_false]
    decide
  have h3 : ("biopsy" == "lp") = false := by decide
  have hmem : predA ∈ mergerDefault.merge_predictions geoTrivial [predA] := by
    simp [ImprovedPolygonMerger.merge_predictions, ImprovedPolygonMerger.filterBackgroundClass,
      ImprovedPolygonMerger.filterShortSegments, ImprovedPolygonMerger.shortDrop, polyTruthy,
      groupByClass, addToGroups, ImprovedPolygonMerger.classOutput,
      ImprovedPolygonMerger.mergeClassPredictions, h1, h2, h3, predA, mergerDefault]
  exact (claim10_background_filter geoTrivial mergerDefault).2 [predA] predA hmem

/-- Claim C9: `merge_predictions` of the empty list is the empty list, and a
class with at most one prediction after the background/short filters passes
through the nested filter and the class merge unchanged — in particular its
single prediction reaches the output with no union, no simplification and no
`min_area` test applied. -/
theorem claim9_single_prediction_passthrough (geo : Geo) (m : ImprovedPolygonMerger) :
    m.merge_predictions geo [] = []
    ∧ (∀ ps : List Prediction, ps.length ≤ 1 → m.mergeClassPredictions geo ps = ps)
    ∧ (∀ ps : List Prediction, ps.length ≤ 1 → m.filterNestedObjects geo ps = ps)
    ∧ (∀ preds c p,
        (c, [p]) ∈ groupByClass (m.filterShortSegments (m.filterBackgroundClass preds)) →
        p ∈ m.merge_predictions geo preds)
    ∧ (∀ c p, m.classOutput geo (c, [p]) = [p]) := by
  refine ⟨by simp [ImprovedPolygonMerger.merge_predictions], ?_, ?_, ?_, ?_⟩
  · intro ps hle
    rw [ImprovedPolygonMerger.mergeClassPredictions, if_pos hle]
  · intro ps hle
    rw [ImprovedPolygonMerger.filterNestedObjects, if_pos hle]
  · intro preds c p hmem
    have hne : ¬preds.isEmpty = true := by
      intro he
      rw [List.isEmpty_iff] at he
      subst he
      simp [ImprovedPolygonMerger.filterBackgroundClass,
        ImprovedPolygonMerger.filterShortSegments, groupByClass] at hmem
    rw [ImprovedPolygonMerger.merge_predictions, if_neg hne]
    refine List.mem_flatten.mpr ⟨m.classOutput geo (c, [p]), List.mem_map_of_mem _ hmem, ?_⟩
    rw [ImprovedPolygonMerger.classOutput]
    have h1 : m.filterNestedObjects geo [p] = [p] := by
      rw [ImprovedPolygonMerger.filterNestedObjects, if_pos (by simp)]
    have h2 : m.mergeClassPredictions geo [p] = [p] := by
      rw [ImprovedPolygonMerger.mergeClassPredictions, if_pos (by simp)]
    split
    · rw [h1, h2]; exact List.mem_singleton.mpr rfl
    · rw [h2]; exact List.mem_singleton.mpr rfl
  · intro c p
    rw [ImprovedPolygonMerger.classOutput]
    have h1 : m.filterNestedObjects geo [p] = [p] := by
      rw [ImprovedPolygonMerger.filterNestedObjects, if_pos (by simp)]
    have h2 : m.mergeClassPredictions geo [p] = [p] := by
      rw [ImprovedPolygonMerger.mergeClassPredictions, if_pos (by simp)]
    split
    · rw [h1, h2]
    · rw [h2]

/-- Witness prediction with a polygon of area 1/2, far below `min_area`. -/
def predTiny : Prediction := ⟨"biopsy", ⟨⟨0, 0⟩, ⟨1, 1⟩⟩, 1/2, some [⟨0, 0⟩, ⟨1, 0⟩, ⟨0, 1⟩]⟩

/-- Claim C9 witness: a lone prediction whose polygon area (1/2) is below
`min_area` (50) is still in the merge output, untouched. -/
theorem claim9_single_prediction_passthrough_witness :
    predTiny ∈ mergerDefault.merge_predictions geoTrivial [predTiny]
    ∧ shArea (closeRing (predTiny.polygon.getD [])) < mergerDefault.min_area := by
  constructor
  · refine (claim9_single_prediction_passthrough geoTrivial mergerDefault).2.2.2.1
      [predTiny] "biopsy" predTiny ?_
    have h1 : ¬(pyLower "biopsy" = pyLower "background") := by decide
    have h3 : ("biopsy" == "lp") = false := by decide
    simp [ImprovedPolygonMerger.filterBackgroundClass, ImprovedPolygonMerger.filterShortSegments,
      ImprovedPolygonMerger.shortDrop, polyTruthy, groupByClass, addToGroups,
      h1, h3, predTiny, mergerDefault]
  · norm_num [closeRing, shoelace, shArea, predTiny, mergerDefault]

/-- Claim C2 (amended): when a class's valid polygons produce an empty
geometric union, `_merge_class_predictions` returns the class's predictions
unchanged (not zero detections), without error; and `merge_predictions`
processes classes independently, concatenating per-class outputs, so one
class's empty union cannot abort the others.  (The unamended claim — zero
output detections for that class — is refuted by the counterexample.) -/
theorem claim2_empty_union (geo : Geo) (m : ImprovedPolygonMerger) (preds : List Prediction)
    (h2 : ¬preds.length ≤ 1)
    (hpoly : ¬(classPolygons geo preds).isEmpty = true)
    (hu : geo.unionFn (classPolygons geo preds) = UnionResult.empty) :
    m.mergeClassPredictions geo preds = preds
    ∧ (∀ ps, ¬ps.isEmpty = true →
        m.merge_predictions geo ps =
          ((groupByClass (m.filterShortSegments (m.filterBackgroundClass ps))).map
            (m.classOutput geo)).flatten) := by
  constructor
  · rw [ImprovedPolygonMerger.mergeClassPredictions, if_neg h2]
    simp only []
    rw [if_neg hpoly, hu]
    rfl
  · intro ps hne
    rw [ImprovedPolygonMerger.merge_predictions, if_neg hne]

/-- Witness triangle prediction 1. -/
def predT1 : Prediction := ⟨"biopsy", ⟨⟨0, 0⟩, ⟨10, 10⟩⟩, 9/10, some [⟨0, 0⟩, ⟨10, 0⟩, ⟨0, 10⟩]⟩

/-- Witness triangle prediction 2, overlapping the first. -/
def predT2 : Prediction := ⟨"biopsy", ⟨⟨5, 5⟩, ⟨15, 15⟩⟩, 8/10, some [⟨5, 5⟩, ⟨15, 5⟩, ⟨5, 15⟩]⟩

/-- Claim C2 counterexample: with an empty union the merge stage returns both
input predictions for the class, not zero detections. -/
theorem claim2_counterexample :
    mergerDefault.merge_predictions geoTrivial [predT1, predT2] = [predT1, predT2]
    ∧ geoTrivial.unionFn (classPolygons geoTrivial [predT1, predT2]) = UnionResult.empty
    ∧ ¬(classPolygons geoTrivial [predT1, predT2]).isEmpty = true
    ∧ ([predT1, predT2] : List Prediction) ≠ [] := by
  have h1 : ¬(pyLower "biopsy" = pyLower "background") := by decide
  have h2 : ("biopsy" = "lp") = False := by
    simp only [eq_iff_iff, iff_false]
    decide
  have h3 : ("biopsy" == "lp") = false := by decide
  refine ⟨?_, rfl, ?_, by simp⟩
  · norm_num [ImprovedPolygonMerger.merge_predictions, ImprovedPolygonMerger.filterBackgroundClass,
      ImprovedPolygonMerger.filterShortSegments, ImprovedPolygonMerger.shortDrop, polyTruthy,
      groupByClass, addToGroups, ImprovedPolygonMerger.classOutput,
      ImprovedPolygonMerger.mergeClassPredictions, classPolygons, closeRing, List.getLastD,
      h1, h2, h3, predT1, predT2, mergerDefault, geoTrivial, Coords.mk.injEq]
    intro h
    rfl
  · norm_num [classPolygons, closeRing, List.getLastD, predT1, predT2, geoTrivial,
      Coords.mk.injEq]
    intro h
    simp at h

theorem filterMap_ite_eq_map_filter {P : α → Prop} [DecidablePred P] (f : α → β) :
    ∀ l : List α, (l.filterMap (fun a => if P a then some (f a) else none)) =
      (l.filter (fun a => decide (P a))).map f := by
  intro l
  induction l with
  | nil => simp
  | cons x t ih =>
    by_cases hx : P x
    · simp [hx, ih]
    · simp [hx, ih]

/-- Claim C3 (amended): over two or more predictions with at least one valid
polygon, the class merge emits exactly one prediction per union piece of area
at least `min_area` and drops every smaller piece — except that when every
piece is below `min_area` (empty merged list) the source returns the input
predictions unchanged rather than zero detections.  The single-piece union
behaves identically.  (The unamended claim — zero output when all pieces are
small — is refuted by the counterexample.) -/
theorem claim3_min_area_filter (geo : Geo) (m : ImprovedPolygonMerger) (preds : List Prediction)
    (h2 : ¬preds.length ≤ 1)
    (hpoly : ¬(classPolygons geo preds).isEmpty = true) :
    (∀ rings, geo.unionFn (classPolygons geo preds) = UnionResult.multi rings →
      m.mergeClassPredictions geo preds =
        (if ((rings.filter (fun r => decide (m.min_area ≤ shArea r))).map
              (fun r => m.polygonToPrediction geo r (className₀ preds))).isEmpty = true
         then preds
         else (rings.filter (fun r => decide (m.min_area ≤ shArea r))).map
              (fun r => m.polygonToPrediction geo r (className₀ preds))))
    ∧ (∀ r, geo.unionFn (classPolygons geo preds) = UnionResult.single r →
        m.mergeClassPredictions geo preds =
          (if m.min_area ≤ shArea r then [m.polygonToPrediction geo r (className₀ preds)]
           else preds)) := by
  constructor
  · intro rings hu
    rw [ImprovedPolygonMerger.mergeClassPredictions, if_neg h2]
    simp only []
    rw [if_neg hpoly, hu, ImprovedPolygonMerger.mergeUnion]
    rw [filterMap_ite_eq_map_filter]
  · intro r hu
    rw [ImprovedPolygonMerger.mergeClassPredictions, if_neg h2]
    simp only []
    rw [if_neg hpoly, hu, ImprovedPolygonMerger.mergeUnion]
    by_cases har : m.min_area ≤ shArea r
    · rw [if_pos har, if_pos har]
      simp
    · rw [if_neg har, if_neg har]
      simp

/-- Union piece of area 1/2, below `min_area`. -/
def ringTiny : List Coords := [⟨0, 0⟩, ⟨1, 0⟩, ⟨0, 1⟩, ⟨0, 0⟩]

/-- Oracle whose union is a `MultiPolygon` with the single tiny piece. -/
def geoSmallUnion : Geo := { geoTrivial with unionFn := fun _ => UnionResult.multi [ringTiny] }

/-- Claim C3 counterexample: when every union piece is below `min_area`, the
merge returns both input predictions, not zero detections. -/
theorem claim3_counterexample :
    mergerDefault.mergeClassPredictions geoSmallUnion [predT1, predT2] = [predT1, predT2]
    ∧ geoSmallUnion.unionFn (classPolygons geoSmallUnion [predT1, predT2]) =
        UnionResult.multi [ringTiny]
    ∧ shArea ringTiny < mergerDefault.min_area
    ∧ ([predT1, predT2] : List Prediction) ≠ [] := by
  refine ⟨?_, rfl, by norm_num [shArea, shoelace, ringTiny, mergerDefault], by simp⟩
  norm_num [ImprovedPolygonMerger.mergeClassPredictions, classPolygons, closeRing,
    List.getLastD, shArea, shoelace, ringTiny, predT1, predT2, mergerDefault, geoSmallUnion,
    geoTrivial, Coords.mk.injEq]
  intro h
  norm_num [ImprovedPolygonMerger.mergeUnion, shArea, shoelace, ringTiny, mergerDefault]

/-- Union piece of area 400, above `min_area`. -/
def ringBig : List Coords := [⟨0, 0⟩, ⟨20, 0⟩, ⟨20, 20⟩, ⟨0, 20⟩, ⟨0, 0⟩]

/-- Oracle whose union is a single polygon with the big piece. -/
def geoBigUnion : Geo := { geoTrivial with unionFn := fun _ => UnionResult.single ringBig }

/-- Claim C3 witness: a single-piece union of area at least `min_area` yields
exactly one merged prediction for the class. -/
theorem claim3_min_area_filter_witness :
    mergerDefault.mergeClassPredictions geoBigUnion [predT1, predT2] =
      [mergerDefault.polygonToPrediction geoBigUnion ringBig "biopsy"] := by
  have h := (claim3_min_area_filter geoBigUnion mergerDefault [predT1, predT2]
    (by norm_num)
    (by norm_num [classPolygons, closeRing, List.getLastD, predT1, predT2, geoBigUnion,
      geoTrivial, Coords.mk.injEq]
        intro h
        simp at h)).2 ringBig rfl
  rw [h, if_pos (by norm_num [shArea, shoelace, ringBig, mergerDefault])]
  rfl

/-- Claim C2 witness: the empty-union branch at a concrete two-prediction
class returns the inputs unchanged. -/
theorem claim2_empty_union_witness :
    mergerDefault.mergeClassPredictions geoTrivial [predT1, predT2] = [predT1, predT2] :=
  (claim2_empty_union geoTrivial mergerDefault [predT1, predT2] (by norm_num)
    (by norm_num [classPolygons, closeRing, List.getLastD, predT1, predT2, geoTrivial,
        Coords.mk.injEq]
        intro h
        simp at h)
    rfl).1

/-- The closed exterior ring a prediction's polygon builds
(`Polygon([(p.x, p.y) for p in pred.polygon])`). -/
def ringOf (p : Prediction) : List Coords :=
  closeRing (p.polygon.getD [])

/-- The three containment signals of `_filter_nested_objects`, as a
proposition about the candidate and an already kept prediction: `within`,
`contains`, or intersection ratio strictly above 0.8. -/
def nestedSignal (geo : Geo) (cand kept : Prediction) : Prop :=
  geo.withinFn (ringOf cand) (ringOf kept) = true
  ∨ geo.containsFn (ringOf kept) (ringOf cand) = true
  ∨ (4:ℚ)/5 < (if 0 < shArea (ringOf cand) then
      geo.interAreaFn (ringOf cand) (ringOf kept) / shArea (ringOf cand) else 0)

theorem nestedBad_iff (geo : Geo) (x y : List Coords × Prediction)
    (hx : x.1 = ringOf x.2) (hy : ∃ l, y.2.polygon = some l ∧ 3 ≤ l.length) :
    nestedBad geo x y = true ↔ nestedSignal geo x.2 y.2 := by
  obtain ⟨l2, hl2, hlen2⟩ := hy
  have hne : l2.isEmpty = false := by
    cases l2 with
    | nil => simp at hlen2
    | cons a t => simp
  have hring : ringOf y.2 = closeRing l2 := by
    rw [ringOf, hl2]
    rfl
  rw [nestedBad, hl2]
  simp only [hne, Bool.false_eq_true, if_false, nestedSignal, hring, hx,
    Bool.or_eq_true, decide_eq_true_eq]
  rw [or_assoc]

theorem nestedPairs_eq_map (geo : Geo) (preds : List Prediction)
    (hall : ∀ p ∈ preds, ∃ l, p.polygon = some l ∧ 3 ≤ l.length ∧
      geo.validFn (closeRing l) = true) :
    nestedPairs geo preds = preds.map (fun p => (ringOf p, p)) := by
  induction preds with
  | nil => simp [nestedPairs]
  | cons q rest ih =>
    obtain ⟨l, hl, h3, hv⟩ := hall q (List.mem_cons_self q rest)
    have hr : ringOf q = closeRing l := by rw [ringOf, hl]; rfl
    rw [nestedPairs, List.filterMap_cons, hl]
    simp only [if_pos h3, hv, if_pos]
    rw [List.map_cons, ← hr]
    have ih' := ih (fun p hp => hall p (List.mem_cons_of_mem q hp))
    rw [nestedPairs] at ih'
    rw [ih']

/-- Claim C7: over same-class predictions that all carry valid polygons of at
least 3 points, the nested-object filter keeps a subset of its input, visits
candidates in descending polygon-area order, never keeps a prediction for
which one of the three signals (`within`, `contains`, intersection ratio
above 0.8) fires against an earlier, larger-or-equal-area kept one, and drops
a prediction only when such a kept witness exists; in particular a prediction
whose polygon is `within` a strictly larger kept same-class polygon is never
in the output, regardless of confidences. -/
theorem claim7_nested_filter (geo : Geo) (m : ImprovedPolygonMerger) (preds : List Prediction)
    (hall : ∀ p ∈ preds, ∃ l, p.polygon = some l ∧ 3 ≤ l.length ∧
      geo.validFn (closeRing l) = true) :
    (∀ p ∈ m.filterNestedObjects geo preds, p ∈ preds)
    ∧ (m.filterNestedObjects geo preds).Pairwise
        (fun a b => shArea (ringOf b) ≤ shArea (ringOf a) ∧ ¬ nestedSignal geo b a)
    ∧ (∀ p ∈ preds, p ∉ m.filterNestedObjects geo preds →
        ∃ q ∈ m.filterNestedObjects geo preds,
          nestedSignal geo p q ∧ shArea (ringOf p) ≤ shArea (ringOf q))
    ∧ (∀ p ∈ preds, ∀ q ∈ m.filterNestedObjects geo preds,
        geo.withinFn (ringOf p) (ringOf q) = true →
        shArea (ringOf p) < shArea (ringOf q) → p ≠ q →
        p ∉ m.filterNestedObjects geo preds) := by
  by_cases hlen : preds.length ≤ 1
  · have hid : m.filterNestedObjects geo preds = preds := by
      rw [ImprovedPolygonMerger.filterNestedObjects, if_pos hlen]
    rw [hid]
    refine ⟨fun p hp => hp, ?_, fun p hp hnot => absurd hp hnot, ?_⟩
    · match preds with
      | [] => simp
      | [a] => simp
      | a :: b :: t => simp at hlen
    · intro p hp q hq _ _ hne
      match preds with
      | [] => simp at hp
      | [a] =>
        rcases List.mem_singleton.mp hp with rfl
        rcases List.mem_singleton.mp hq with rfl
        exact absurd rfl hne
      | a :: b :: t => simp at hlen
  · have hmap := nestedPairs_eq_map geo preds hall
    have hempty : ¬(nestedPairs geo preds).isEmpty = true := by
      rw [hmap]
      match preds with
      | [] => simp at hlen
      | a :: t => simp
    have hfil : m.filterNestedObjects geo preds =
        (greedyKeep (nestedBad geo) [] (sortByAreaDesc (nestedPairs geo preds))).map (·.2) := by
      rw [ImprovedPolygonMerger.filterNestedObjects, if_neg hlen]
      simp only []
      rw [if_neg hempty]
    have hwf : ∀ pr ∈ sortByAreaDesc (nestedPairs geo preds),
        pr.1 = ringOf pr.2 ∧ pr.2 ∈ preds := by
      intro pr hpr
      have h1 : pr ∈ nestedPairs geo preds := (List.perm_insertionSort _ _).mem_iff.mp hpr
      rw [hmap] at h1
      obtain ⟨p, hp, rfl⟩ := List.mem_map.mp h1
      exact ⟨rfl, hp⟩
    have hGsub : (greedyKeep (nestedBad geo) [] (sortByAreaDesc (nestedPairs geo preds))).Sublist
        (sortByAreaDesc (nestedPairs geo preds)) := by
      simpa using greedyKeep_sublist (nestedBad geo) (sortByAreaDesc (nestedPairs geo preds)) []
    have hGmem : ∀ pr ∈ greedyKeep (nestedBad geo) [] (sortByAreaDesc (nestedPairs geo preds)),
        pr.1 = ringOf pr.2 ∧ pr.2 ∈ preds := fun pr hpr => hwf pr (hGsub.mem hpr)
    have hsorted : (sortByAreaDesc (nestedPairs geo preds)).Pairwise
        (fun a b => shArea b.1 ≤ shArea a.1) := List.sorted_insertionSort _ _
    have hpw1 : (greedyKeep (nestedBad geo) [] (sortByAreaDesc (nestedPairs geo preds))).Pairwise
        (fun a b => nestedBad geo b a = false) :=
      greedyKeep_pairwise (nestedBad geo) _ [] (by simp)
    have hpw2 : (greedyKeep (nestedBad geo) [] (sortByAreaDesc (nestedPairs geo preds))).Pairwise
        (fun a b => shArea b.1 ≤ shArea a.1) := hsorted.sublist hGsub
    have hpair : (m.filterNestedObjects geo preds).Pairwise
        (fun a b => shArea (ringOf b) ≤ shArea (ringOf a) ∧ ¬ nestedSignal geo b a) := by
      rw [hfil]
      rw [List.pairwise_map]
      refine (hpw1.and hpw2).imp_of_mem ?_
      intro a b ha hb hab
      obtain ⟨ha1, ha2⟩ := hGmem a ha
      obtain ⟨hb1, hb2⟩ := hGmem b hb
      refine ⟨by rw [← ha1, ← hb1]; exact hab.2, ?_⟩
      intro hsig
      have : nestedBad geo b a = true := by
        rw [nestedBad_iff geo b a hb1 ?_]
        · exact hsig
        · obtain ⟨l, hl, h3, _⟩ := hall a.2 ha2
          exact ⟨l, hl, h3⟩
      rw [hab.1] at this
      exact Bool.false_ne_true this
    refine ⟨fun p hp => mem_filterNestedObjects geo m hp, hpair, ?_, ?_⟩
    · intro p hp hnot
      have hprmem : (ringOf p, p) ∈ sortByAreaDesc (nestedPairs geo preds) := by
        refine (List.perm_insertionSort _ _).mem_iff.mpr ?_
        rw [hmap]
        exact List.mem_map_of_mem _ hp
      have hprnot : (ringOf p, p) ∉
          greedyKeep (nestedBad geo) [] (sortByAreaDesc (nestedPairs geo preds)) := by
        intro hcon
        exact hnot (by rw [hfil]; exact List.mem_map_of_mem _ hcon)
      obtain ⟨qr, hqr, hbad, hle⟩ := greedyKeep_complete (nestedBad geo)
        (fun a b => shArea b.1 ≤ shArea a.1) (sortByAreaDesc (nestedPairs geo preds)) []
        (by simpa using hsorted) (ringOf p, p) hprmem hprnot
      obtain ⟨hq1, hq2⟩ := hGmem qr hqr
      refine ⟨qr.2, by rw [hfil]; exact List.mem_map_of_mem _ hqr, ?_, ?_⟩
      · rw [← nestedBad_iff geo (ringOf p, p) qr rfl ?_]
        · exact hbad
        · obtain ⟨l, hl, h3, _⟩ := hall qr.2 hq2
          exact ⟨l, hl, h3⟩
      · rw [← hq1]
        exact hle
    · intro p hp q hq hwithin harea hne hcon
      rcases pairwise_mem_or hpair hcon hq with heq | hS | hS
      · exact hne heq
      · exact absurd hS.1 (not_le.mpr harea)
      · exact hS.2 (Or.inl hwithin)

/-- Large lp triangle (area 450, low confidence). -/
def predBigLp : Prediction := ⟨"lp", ⟨⟨0, 0⟩, ⟨30, 30⟩⟩, 1/2, some [⟨0, 0⟩, ⟨30, 0⟩, ⟨0, 30⟩]⟩

/-- Small lp triangle inside the large one (area 2, high confidence). -/
def predSmallLp : Prediction := ⟨"lp", ⟨⟨1, 1⟩, ⟨3, 3⟩⟩, 9/10, some [⟨1, 1⟩, ⟨3, 1⟩, ⟨1, 3⟩]⟩

/-- Oracle whose `within` answers smaller-area-inside-larger, matching the
actual geometry of the two witness triangles. -/
def geoNest : Geo :=
  { geoTrivial with
    withinFn := fun a b => decide (shArea a < shArea b)
    interAreaFn := fun a b => min (shArea a) (shArea b) }

/-- Claim C7 witness: on a small triangle lying inside a large one, the filter
keeps only the large triangle and the fully contained small one is removed via
the theorem's containment conclusion, despite its higher confidence. -/
theorem claim7_nested_filter_witness :
    mergerDefault.filterNestedObjects geoNest [predSmallLp, predBigLp] = [predBigLp]
    ∧ predSmallLp ∉ mergerDefault.filterNestedObjects geoNest [predSmallLp, predBigLp]
    ∧ (mergerDefault.filterNestedObjects geoNest [predSmallLp, predBigLp]).Pairwise
      (fun a b => shArea (ringOf b) ≤ shArea (ringOf a) ∧ ¬ nestedSignal geoNest b a) := by
  have hall : ∀ p ∈ [predSmallLp, predBigLp], ∃ l, p.polygon = some l ∧ 3 ≤ l.length ∧
      geoNest.validFn (closeRing l) = true := by
    intro p hp
    rcases List.mem_cons.mp hp with rfl | hp'
    · exact ⟨[⟨1, 1⟩, ⟨3, 1⟩, ⟨1, 3⟩], rfl, by norm_num, rfl⟩
    · rcases List.mem_singleton.mp hp' with rfl
      exact ⟨[⟨0, 0⟩, ⟨30, 0⟩, ⟨0, 30⟩], rfl, by norm_num, rfl⟩
  have heval : mergerDefault.filterNestedObjects geoNest [predSmallLp, predBigLp]
      = [predBigLp] := by
    norm_num [ImprovedPolygonMerger.filterNestedObjects, nestedPairs, sortByAreaDesc,
      List.insertionSort, List.orderedInsert, greedyKeep, nestedBad, closeRing,
      List.getLastD, List.filterMap_cons, shArea, shoelace, predSmallLp, predBigLp,
      geoNest, geoTrivial, mergerDefault, Coords.mk.injEq]
  refine ⟨heval, ?_, (claim7_nested_filter geoNest mergerDefault _ hall).2.1⟩
  refine (claim7_nested_filter geoNest mergerDefault _ hall).2.2.2 predSmallLp (by simp)
    predBigLp (by rw [heval]; exact List.mem_singleton.mpr rfl) ?_ ?_ ?_
  · norm_num [ringOf, closeRing, List.getLastD, shArea, shoelace, predSmallLp, predBigLp,
      geoNest, geoTrivial, Coords.mk.injEq]
  · norm_num [ringOf, closeRing, List.getLastD, shArea, shoelace, predSmallLp, predBigLp,
      Coords.mk.injEq]
  · intro heq
    have := congrArg Prediction.conf heq
    norm_num [predSmallLp, predBigLp] at this

/-- Claim C5: `simplify_polygon` classifies a valid non-empty polygon by its
closed-ring point count — fewer than 20 points gives the simple profile
(target 15), more than 200 the complex profile (target 80), otherwise the
medium profile (target 60) — and a polygon already at or below its profile's
target is returned unchanged with method `no_simplification_needed` and area
and perimeter ratios exactly 1. -/
theorem claim5_classification_noop (geo : Geo) (polygon : List Coords)
    (hv : geo.validFn polygon = true) (hne : polygon ≠ []) :
    ((polygon.length < 20 → paramsFor polygon.length = simple_params
        ∧ complexityFor polygon.length = "simple" ∧ simple_params.max_points = 15)
    ∧ (200 < polygon.length → paramsFor polygon.length = complex_params
        ∧ complexityFor polygon.length = "complex" ∧ complex_params.max_points = 80)
    ∧ (20 ≤ polygon.length → polygon.length ≤ 200 → paramsFor polygon.length = default_params
        ∧ complexityFor polygon.length = "medium" ∧ default_params.max_points = 60))
    ∧ (polygon.length ≤ (paramsFor polygon.length).max_points →
        simplify_polygon geo polygon none = SimpResult.ok polygon
          ⟨polygon.length, polygon.length, 1, 1, complexityFor polygon.length,
            "no_simplification_needed", 0, 0⟩) := by
  constructor
  · refine ⟨?_, ?_, ?_⟩
    · intro h
      rw [paramsFor, complexityFor, if_pos (by rwa [simple_threshold]),
        if_pos (by rwa [simple_threshold])]
      exact ⟨rfl, rfl, rfl⟩
    · intro h
      have hns : ¬polygon.length < simple_threshold := by
        rw [simple_threshold]; omega
      rw [paramsFor, complexityFor, if_neg hns, if_neg hns,
        if_pos (by rwa [complex_threshold]), if_pos (by rwa [complex_threshold])]
      exact ⟨rfl, rfl, rfl⟩
    · intro h1 h2
      have hns : ¬polygon.length < simple_threshold := by
        rw [simple_threshold]; omega
      have hnc : ¬complex_threshold < polygon.length := by
        rw [complex_threshold]; omega
      rw [paramsFor, complexityFor, if_neg hns, if_neg hns, if_neg hnc, if_neg hnc]
      exact ⟨rfl, rfl, rfl⟩
  · intro hle
    have hcond : ¬(geo.validFn polygon = false ∨ polygon.isEmpty = true) := by
      push_neg
      constructor
      · rw [hv]
        simp
      · intro h
        exact hne (List.isEmpty_iff.mp h)
    rw [simplify_polygon, if_neg hcond]
    simp only [Option.getD_none]
    rw [if_pos hle]

/-- Square ring used by the C5 witness: 5 closed coordinates, simple profile. -/
def sqRing5 : List Coords := [⟨0, 0⟩, ⟨4, 0⟩, ⟨4, 4⟩, ⟨0, 4⟩, ⟨0, 0⟩]

/-- Claim C5 witness: a 5-point square is classified simple and returned
unchanged with the no-op method and unit ratios. -/
theorem claim5_classification_noop_witness :
    simplify_polygon geoTrivial sqRing5 none = SimpResult.ok sqRing5
      ⟨5, 5, 1, 1, "simple", "no_simplification_needed", 0, 0⟩ :=
  (claim5_classification_noop geoTrivial sqRing5 rfl (by simp [sqRing5])).2
    (by norm_num [sqRing5, paramsFor, simple_threshold, complex_threshold, simple_params])


theorem fallback_method_ne_dp (geo : Geo) (ring : List Coords) (target : Nat)
    (params : SimpParams) :
    (fallbackSimplify geo ring target params).2.method ≠ "douglas_peucker" := by
  rw [fallbackSimplify]
  split
  · exact (show ¬"no_simplification_needed" = "douglas_peucker" by decide)
  · simp only []
    split
    case h_1 r heq =>
      split at heq
      · split at heq
        · split at heq
          · obtain rfl := Option.some.inj heq
            exact (show ¬"key_points_preservation" = "douglas_peucker" by decide)
          · simp at heq
        · simp at heq
      · simp at heq
    case h_2 heq =>
      split
      · exact (show ¬"fallback_error" = "douglas_peucker" by decide)
      · split
        · split
          · exact (show ¬"fallback_error" = "douglas_peucker" by decide)
          · split
            · exact (show ¬"adaptive_sampling" = "douglas_peucker" by decide)
            · exact (show ¬"fallback_failed" = "douglas_peucker" by decide)
        · split
          · exact (show ¬"fallback_error" = "douglas_peucker" by decide)
          · split
            · exact (show ¬"adaptive_sampling" = "douglas_peucker" by decide)
            · exact (show ¬"fallback_failed" = "douglas_peucker" by decide)

theorem adStep_meta_cases (geo : Geo) (ring : List Coords) (target : Nat) (thr : ℚ)
    (st : AState) (i : Nat) :
    ((adStep geo ring target thr st i).bestMeta = st.bestMeta ∧
      (adStep geo ring target thr st i).best = st.best)
    ∨ (∃ tol s, (adStep geo ring target thr st i).bestMeta =
          some ⟨"douglas_peucker", tol, i + 1⟩ ∧
        (adStep geo ring target thr st i).best = s ∧
        thr ≤ (if 0 < shArea ring then shArea s / shArea ring else 0)) := by
  rw [adStep]
  simp only []
  by_cases h1 : geo.validFn (geo.simplifyFn ring ((st.minT + st.maxT) / 2)) = false ∨
      (geo.simplifyFn ring ((st.minT + st.maxT) / 2)).length < 3
  · rw [if_pos h1]
    exact Or.inl ⟨rfl, rfl⟩
  · rw [if_neg h1]
    by_cases h2 : thr ≤ (if 0 < shArea ring then
        shArea (geo.simplifyFn ring ((st.minT + st.maxT) / 2)) / shArea ring else 0)
    · rw [if_pos h2]
      by_cases h3 : (geo.simplifyFn ring ((st.minT + st.maxT) / 2)).length ≤ target
      · rw [if_pos h3]
        by_cases h4 : st.bestScore <
            (if 0 < shArea ring then
              shArea (geo.simplifyFn ring ((st.minT + st.maxT) / 2)) / shArea ring else 0) *
            ((target : ℚ) / (max ((geo.simplifyFn ring ((st.minT + st.maxT) / 2)).length : ℚ) 1))
        · rw [if_pos h4]
          exact Or.inr ⟨(st.minT + st.maxT) / 2,
            geo.simplifyFn ring ((st.minT + st.maxT) / 2), rfl, rfl, h2⟩
        · rw [if_neg h4]
          exact Or.inl ⟨rfl, rfl⟩
      · rw [if_neg h3]
        exact Or.inl ⟨rfl, rfl⟩
    · rw [if_neg h2]
      exact Or.inl ⟨rfl, rfl⟩

theorem adStep_inv (geo : Geo) (ring : List Coords) (target : Nat) (thr : ℚ)
    (hthr : 0 < thr) (st : AState) (i : Nat)
    (h : ∀ bm, st.bestMeta = some bm → bm.method = "douglas_peucker" ∧ 0 < shArea ring ∧
      thr ≤ shArea st.best / shArea ring) :
    ∀ bm, (adStep geo ring target thr st i).bestMeta = some bm →
      bm.method = "douglas_peucker" ∧ 0 < shArea ring ∧
        thr ≤ shArea (adStep geo ring target thr st i).best / shArea ring := by
  intro bm hbm
  rcases adStep_meta_cases geo ring target thr st i with ⟨hmeta, hbest⟩ | ⟨tol, s, hmeta, hbest, hle⟩
  · rw [hmeta] at hbm
    rw [hbest]
    exact h bm hbm
  · rw [hmeta] at hbm
    obtain rfl := Option.some.inj hbm
    rw [hbest]
    by_cases hpos : 0 < shArea ring
    · rw [if_pos hpos] at hle
      exact ⟨rfl, hpos, hle⟩
    · rw [if_neg hpos] at hle
      exact absurd (lt_of_lt_of_le hthr hle) (lt_irrefl 0)

theorem adLoop_inv (geo : Geo) (ring : List Coords) (target : Nat) (thr : ℚ)
    (hthr : 0 < thr) :
    ∀ (l : List Nat) (st : AState),
      (∀ bm, st.bestMeta = some bm → bm.method = "douglas_peucker" ∧ 0 < shArea ring ∧
        thr ≤ shArea st.best / shArea ring) →
      ∀ bm, (l.foldl (adStep geo ring target thr) st).bestMeta = some bm →
        bm.method = "douglas_peucker" ∧ 0 < shArea ring ∧
          thr ≤ shArea (l.foldl (adStep geo ring target thr) st).best / shArea ring := by
  intro l
  induction l with
  | nil => intro st h; simpa using h
  | cons i rest ih =>
    intro st h
    rw [List.foldl_cons]
    exact ih _ (adStep_inv geo ring target thr hthr st i h)

theorem adaptiveSimplify_dp (geo : Geo) (ring : List Coords) (target : Nat)
    (params : SimpParams) (hthr : 0 < params.area_preservation_threshold)
    (out : List Coords) (bm : BMeta)
    (h : adaptiveSimplify geo ring target params = (out, some bm))
    (hm : bm.method = "douglas_peucker") :
    0 < shArea ring ∧ params.area_preservation_threshold ≤ shArea out / shArea ring := by
  rw [adaptiveSimplify] at h
  simp only [] at h
  split at h
  · have hne := fallback_method_ne_dp geo ring target params
    have h2 := congrArg Prod.snd h
    simp only [] at h2
    have hfb : (fallbackSimplify geo ring target params).2 = bm := Option.some.inj h2
    rw [hfb] at hne
    exact absurd hm hne
  · have h1 := congrArg Prod.fst h
    have h2 := congrArg Prod.snd h
    simp only [] at h1 h2
    have hinv := adLoop_inv geo ring target params.area_preservation_threshold hthr
      (List.range 12) ⟨params.min_tolerance, params.max_tolerance, ring, 0, none⟩
      (by intro bm' hbm'; simp at hbm') bm h2
    rw [h1] at hinv
    exact ⟨hinv.2.1, hinv.2.2⟩

/-- Claim C6: whenever `simplify_polygon` reports method `douglas_peucker`,
the reported area-preserved ratio is at least the profile's area-preservation
threshold (0.95 simple, 0.97 medium, 0.98 complex), for any target and any
behaviour of the external simplification oracle. -/
theorem claim6_area_floor (geo : Geo) (polygon : List Coords) (tOpt : Option Nat)
    (out : List Coords) (mets : SimpMetrics)
    (h : simplify_polygon geo polygon tOpt = SimpResult.ok out mets)
    (hm : mets.method = "douglas_peucker") :
    (paramsFor polygon.length).area_preservation_threshold ≤ mets.area_preserved := by
  have hthr : 0 < (paramsFor polygon.length).area_preservation_threshold := by
    rw [paramsFor]
    split_ifs <;> norm_num [simple_params, complex_params, default_params]
  rw [simplify_polygon] at h
  split at h
  · exact SimpResult.noConfusion h
  · simp only [] at h
    split at h
    · injection h with h1 h2
      rw [← h2] at hm
      exact absurd hm (show ¬"no_simplification_needed" = "douglas_peucker" by decide)
    · injection h with h1 h2
      rw [← h2] at hm ⊢
      cases hr2 : (adaptiveSimplify geo polygon (tOpt.getD (paramsFor polygon.length).max_points)
          (paramsFor polygon.length)).2 with
      | none =>
        rw [hr2] at hm
        exact absurd hm (show ¬"adaptive_simplify" = "douglas_peucker" by decide)
      | some bm =>
        rw [hr2] at hm
        simp only [Option.map_some, Option.getD_some] at hm
        have h' : adaptiveSimplify geo polygon
            (tOpt.getD (paramsFor polygon.length).max_points) (paramsFor polygon.length) =
            ((adaptiveSimplify geo polygon (tOpt.getD (paramsFor polygon.length).max_points)
              (paramsFor polygon.length)).1, some bm) := by
          rw [← hr2]
        obtain ⟨hpos, hratio⟩ := adaptiveSimplify_dp geo polygon
          (tOpt.getD (paramsFor polygon.length).max_points) (paramsFor polygon.length)
          hthr _ bm h' hm
        simp only []
        rw [if_pos hpos]
        exact hratio

/-- C6 witness input: a right triangle with one subdivided edge (5 closed
coordinates, area 800, simple profile). -/
def triRing5 : List Coords := [⟨0, 0⟩, ⟨20, 0⟩, ⟨40, 0⟩, ⟨40, 40⟩, ⟨0, 0⟩]

/-- C6 witness simplification result: the same triangle without the collinear
point (4 closed coordinates, same area). -/
def triRing4 : List Coords := [⟨0, 0⟩, ⟨40, 0⟩, ⟨40, 40⟩, ⟨0, 0⟩]

/-- Oracle whose Douglas-Peucker simplification always returns `triRing4`. -/
def geoC6 : Geo :=
  ⟨fun _ => true, fun _ _ => triRing4, fun _ => 1, fun _ => UnionResult.empty,
   fun _ _ => false, fun _ _ => false, fun _ _ => 0⟩

/-- Claim C6 witness: a concrete douglas_peucker-labeled run whose reported
area ratio (1) meets the simple profile's floor (0.95). -/
theorem claim6_area_floor_witness :
    simplify_polygon geoC6 triRing5 (some 4) =
      SimpResult.ok triRing4 ⟨5, 4, 1, 1, "simple", "douglas_peucker", 21/40, 1⟩
    ∧ (paramsFor triRing5.length).area_preservation_threshold ≤
      (⟨5, 4, 1, 1, "simple", "douglas_peucker", 21/40, 1⟩ : SimpMetrics).area_preserved := by
  have h : simplify_polygon geoC6 triRing5 (some 4) =
      SimpResult.ok triRing4 ⟨5, 4, 1, 1, "simple", "douglas_peucker", 21/40, 1⟩ := by
    norm_num [simplify_polygon, paramsFor, complexityFor, simple_threshold, complex_threshold,
      simple_params, adaptiveSimplify, adStep, List.range_succ, shArea, shoelace,
      triRing5, triRing4, geoC6, max_def]
  exact ⟨h, claim6_area_floor geoC6 triRing5 (some 4) triRing4 _ h rfl⟩

/-- Claim C4 (amended): whenever `_fallback_simplify` returns via the
uniform-sampling branch (method `adaptive_sampling`), the returned closed ring
has at most `target_points + 1` coordinates — at most `target_points` vertices
as an open ring — and passed the validity check.  (The unamended claim — that
the fallback **always** produces a valid polygon within target, so the
simplifier never returns an over-target fallback result — fails when the
sampled ring is rejected as invalid: the source then returns the original
polygon with method `fallback_failed`; see the counterexample.) -/
theorem claim4_fallback_bound (geo : Geo) (ring : List Coords) (target_points : Nat)
    (params : SimpParams) (out : List Coords) (meta : BMeta)
    (h : fallbackSimplify geo ring target_points params = (out, meta))
    (hm : meta.method = "adaptive_sampling") :
    out.length - 1 ≤ target_points ∧ geo.validFn out = true := by
  rw [fallbackSimplify] at h
  split at h
  · have h2 := congrArg Prod.snd h
    simp only [] at h2
    rw [← h2] at hm
    exact absurd hm (show ¬"no_simplification_needed" = "adaptive_sampling" by decide)
  · simp only [] at h
    split at h
    case h_1 r heq =>
      split at heq
      · split at heq
        · split at heq
          · obtain rfl := Option.some.inj heq
            have h2 := congrArg Prod.snd h
            simp only [] at h2
            rw [← h2] at hm
            exact absurd hm (show ¬"key_points_preservation" = "adaptive_sampling" by decide)
          · simp at heq
        · simp at heq
      · simp at heq
    case h_2 heq =>
      split at h
      · have h2 := congrArg Prod.snd h
        simp only [] at h2
        rw [← h2] at hm
        exact absurd hm (show ¬"fallback_error" = "adaptive_sampling" by decide)
      · split at h
        · split at h
          · have h2 := congrArg Prod.snd h
            simp only [] at h2
            rw [← h2] at hm
            exact absurd hm (show ¬"fallback_error" = "adaptive_sampling" by decide)
          · split at h
            · rename_i hv
              have h1 := congrArg Prod.fst h
              simp only [] at h1
              have hlen : out.length = target_points + 1 := by
                rw [← h1]
                simp
              refine ⟨by omega, ?_⟩
              rw [← h1]
              exact hv
            · have h2 := congrArg Prod.snd h
              simp only [] at h2
              rw [← h2] at hm
              exact absurd hm (show ¬"fallback_failed" = "adaptive_sampling" by decide)
        · split at h
          · have h2 := congrArg Prod.snd h
            simp only [] at h2
            rw [← h2] at hm
            exact absurd hm (show ¬"fallback_error" = "adaptive_sampling" by decide)
          · split at h
            · rename_i hv
              have h1 := congrArg Prod.fst h
              simp only [] at h1
              have hlen : out.length = target_points := by
                rw [← h1]
                simp
              refine ⟨by omega, ?_⟩
              rw [← h1]
              exact hv
            · have h2 := congrArg Prod.snd h
              simp only [] at h2
              rw [← h2] at hm
              exact absurd hm (show ¬"fallback_failed" = "adaptive_sampling" by decide)

/-- Claim C4 witness: sampling the 5-coordinate square down to 3 points
returns a valid 4-coordinate closed ring (3 open vertices ≤ target 3). -/
theorem claim4_fallback_bound_witness :
    fallbackSimplify geoTrivial sqRing5 3 simple_params =
      ([⟨0, 0⟩, ⟨4, 0⟩, ⟨0, 4⟩, ⟨0, 0⟩], { method := "adaptive_sampling" })
    ∧ ([⟨0, 0⟩, ⟨4, 0⟩, ⟨0, 4⟩, ⟨0, 0⟩] : List Coords).length - 1 ≤ 3
    ∧ geoTrivial.validFn [⟨0, 0⟩, ⟨4, 0⟩, ⟨0, 4⟩, ⟨0, 0⟩] = true := by
  have h : fallbackSimplify geoTrivial sqRing5 3 simple_params =
      ([⟨0, 0⟩, ⟨4, 0⟩, ⟨0, 4⟩, ⟨0, 0⟩], { method := "adaptive_sampling" }) := by
    have htn : (Int.toNat 3 : ℕ) = 3 := rfl
    norm_num [fallbackSimplify, findKeyPoints, sharpB, closeRing, List.getLastD,
      List.range_succ, List.filterMap_cons, List.filterMap_append, List.map_append,
      sqRing5, simple_params, geoTrivial, Coords.mk.injEq, Int.toNat_ofNat, htn]
  exact ⟨h,
    (claim4_fallback_bound geoTrivial sqRing5 3 simple_params _ _ h rfl).1,
    (claim4_fallback_bound geoTrivial sqRing5 3 simple_params _ _ h rfl).2⟩

/-- C4 counterexample input: a 40-by-40 square with each side subdivided into
4 segments — 17 closed coordinates (16 open vertices), simple profile with
target 15. -/
def ringCX : List Coords :=
  [⟨0, 0⟩, ⟨10, 0⟩, ⟨20, 0⟩, ⟨30, 0⟩, ⟨40, 0⟩, ⟨40, 10⟩, ⟨40, 20⟩, ⟨40, 30⟩, ⟨40, 40⟩,
   ⟨30, 40⟩, ⟨20, 40⟩, ⟨10, 40⟩, ⟨0, 40⟩, ⟨0, 30⟩, ⟨0, 20⟩, ⟨0, 10⟩, ⟨0, 0⟩]

/-- C4 counterexample oracle: the original 17-coordinate ring is valid, every
other ring (in particular the degenerate simplification results, the 5-point
key-point ring and the 16-point sampled ring) is rejected as invalid, and
Douglas-Peucker simplification always degenerates. -/
def geoCX : Geo :=
  ⟨fun l => decide (l.length = 17), fun _ _ => [], fun _ => 1, fun _ => UnionResult.empty,
   fun _ _ => false, fun _ _ => false, fun _ _ => 0⟩

/-- Claim C4 counterexample: on a valid 16-vertex input in the simple profile
(target 15), with the binary search and the key-point path both failing and
the sampled ring rejected by the validity check, the fallback returns the
original polygon (method `fallback_failed`) — so the simplifier returns a
fallback-path result with 16 > 15 open-ring vertices, contradicting the
claimed unconditional bound. -/
theorem claim4_counterexample :
    simplify_polygon geoCX ringCX none =
      SimpResult.ok ringCX ⟨17, 17, 1, 1, "simple", "fallback_failed", 0, 0⟩
    ∧ geoCX.validFn ringCX = true
    ∧ (paramsFor ringCX.length).max_points = 15
    ∧ 15 < ringCX.length - 1 := by
  refine ⟨?_, rfl, by norm_num [paramsFor, simple_threshold, complex_threshold,
    simple_params, ringCX], by norm_num [ringCX]⟩
  have ht2 : (Int.toNat 2 : ℕ) = 2 := rfl
  have ht3 : (Int.toNat 3 : ℕ) = 3 := rfl
  have ht4 : (Int.toNat 4 : ℕ) = 4 := rfl
  have ht5 : (Int.toNat 5 : ℕ) = 5 := rfl
  have ht6 : (Int.toNat 6 : ℕ) = 6 := rfl
  have ht7 : (Int.toNat 7 : ℕ) = 7 := rfl
  have ht8 : (Int.toNat 8 : ℕ) = 8 := rfl
  have ht9 : (Int.toNat 9 : ℕ) = 9 := rfl
  have ht10 : (Int.toNat 10 : ℕ) = 10 := rfl
  have ht11 : (Int.toNat 11 : ℕ) = 11 := rfl
  have ht12 : (Int.toNat 12 : ℕ) = 12 := rfl
  have ht13 : (Int.toNat 13 : ℕ) = 13 := rfl
  have ht14 : (Int.toNat 14 : ℕ) = 14 := rfl
  have ht15 : (Int.toNat 15 : ℕ) = 15 := rfl
  norm_num [simplify_polygon, paramsFor, complexityFor, simple_threshold, complex_threshold,
    simple_params, adaptiveSimplify, adStep, fallbackSimplify, findKeyPoints, sharpB,
    closeRing, List.getLastD, shArea, shoelace, List.range_succ, List.filterMap_cons,
    List.filterMap_append, List.map_append, List.foldl_append, ringCX, geoCX,
    Coords.mk.injEq, Int.toNat_ofNat, ht2, ht3, ht4, ht5, ht6, ht7, ht8, ht9, ht10, ht11,
    ht12, ht13, ht14, ht15]
